import Mathlib

/-!
Verification of the chat-server core in `src/server.js` (CHAT-APP).

The development shallowly embeds the server-side logic:
* input validation (`validateUsername`, `validateMessage`, server.js:118-129),
* sanitization (`sanitizeMessage`, server.js:131-137, which calls the `xss`
  npm package (js-xss) with `whiteList: {}`, `stripIgnoreTag: true`,
  `stripIgnoreTagBody: ['script']`; the library's parser and the
  strip-tag-body post-pass are modelled faithfully below),
* the per-socket message rate limiter (`checkMessageRate`, server.js:102-115),
* the socket event handlers (`join`, `chat message`, `file message`,
  `typing`, `stop typing`, `disconnect`, and the 30s validation timer,
  server.js:232-387) as a step function on an explicit server state.

Machine integers do not occur (all counters are small naturals); JS strings
are modelled as Lean `String` (code-point length stands in for UTF-16
length, which agrees on all inputs used here); event payload fields are
modelled as `JsValue` (null / undefined / string), the value space that the
handlers actually distinguish.
-/

/-- A JavaScript value as received in a socket.io payload field, restricted
to the shapes the handlers distinguish: `null`, `undefined`, or a string. -/
inductive JsValue where
  | vNull
  | vUndefined
  | vStr (s : String)
deriving DecidableEq

/-- JS truthiness for the modelled values: `null`, `undefined` and the empty
string are falsy, non-empty strings truthy. -/
def jsTruthy : JsValue → Bool
  | .vStr s => !(s = "")
  | _ => false

/-- The string carried by a `JsValue`, defaulting to `""`. -/
def jsStr : JsValue → String
  | .vStr s => s
  | _ => ""

/-- The JS whitespace class `\s` (as matched by `RegExp` and removed by
`String.prototype.trim`). -/
def isJsSpace (c : Char) : Bool :=
  c = ' ' || c = '\t' || c = '\n' || c = '\r' ||
  c = Char.ofNat 0x0b || c = Char.ofNat 0x0c ||
  c = Char.ofNat 0xa0 || c = Char.ofNat 0x1680 ||
  (0x2000 ≤ c.toNat && c.toNat ≤ 0x200a) ||
  c = Char.ofNat 0x2028 || c = Char.ofNat 0x2029 ||
  c = Char.ofNat 0x202f || c = Char.ofNat 0x205f ||
  c = Char.ofNat 0x3000 || c = Char.ofNat 0xfeff

/-- Strip leading and trailing JS whitespace from a character list
(`String.prototype.trim`). -/
def trimList (l : List Char) : List Char :=
  ((l.dropWhile isJsSpace).reverse.dropWhile isJsSpace).reverse

/-- `String.prototype.trim`. -/
def jsTrim (s : String) : String := ⟨trimList s.data⟩

/-- `String.prototype.toLowerCase` (per-character lowering; ASCII-exact,
which is all the reserved-name and uniqueness comparisons rely on). -/
def strToLower (s : String) : String := ⟨s.data.map Char.toLower⟩

/-- One character of the username pattern `/^[a-zA-Z0-9\s\-_\.]+$/`
(server.js:121). -/
def isNameChar (c : Char) : Bool :=
  c.isAlpha || c.isDigit || isJsSpace c || c = '-' || c = '_' || c = '.'

/-- `validateUsername` (server.js:118-123): must be a (truthy) string of
length 2..20 matching `/^[a-zA-Z0-9\s\-_\.]+$/`.  The `!username` guard only
rejects the empty string among strings, which the length check also rejects. -/
def validateUsername : JsValue → Bool
  | .vStr u =>
      if u.length < 2 || u.length > 20 then false
      else u.data.all isNameChar
  | _ => false

/-- `validateMessage` (server.js:125-129): a truthy string (so non-null and
non-empty) of length at most 500. -/
def validateMessage : JsValue → Bool
  | .vStr m =>
      if m = "" then false
      else decide (m.length ≤ 500)
  | _ => false

/-! ## The sanitizer: js-xss with whiteList {}, stripIgnoreTag,
stripIgnoreTagBody ['script']

`sanitizeMessage` (server.js:131-137) delegates to the js-xss library.  The
model below reproduces, on `List Char`:
* `stripCommentTag` (default.js): non-greedy global replacement of
  `<!--...-->` by the empty string, applied first since `allowCommentTag`
  is unset;
* `parseTag` (parser.js): the character scanner that splits the input into
  text runs (passed through `escapeHtml`, which replaces `<` by `&lt;` and
  `>` by `&gt;`) and tags.  Since the white list is empty every tag is
  ignored; `stripIgnoreTag` replaces an ignored tag by the empty string,
  except that `stripIgnoreTagBody: ['script']` emits `[removed]` /
  `[/removed]` markers for script tags and records the output span of each
  script body in `removeList`;
* the final `remove` pass of `StripTagBody` (default.js), which deletes the
  recorded spans from the output.
-/

/-- js-xss `escapeHtml` on one character: `<` becomes `&lt;`, `>` becomes
`&gt;`, everything else is kept. -/
def escChar (c : Char) : List Char :=
  if c = '<' then "&lt;".data else if c = '>' then "&gt;".data else [c]

/-- js-xss default `escapeHtml` over a character list. -/
def escapeHtmlList : List Char → List Char
  | [] => []
  | c :: rest => escChar c ++ escapeHtmlList rest

/-- JS `String.prototype.slice(a, b)` for `0 ≤ a ≤ b` (the only use sites). -/
def sliceList (l : List Char) (a b : Nat) : List Char := (l.take b).drop a

/-- Index of the first JS whitespace character (`_.spaceIndex`). -/
def listSpaceIndex (l : List Char) : Option Nat := l.findIdx? isJsSpace

/-- js-xss `getTagName` (parser.js): the lowercased, trimmed tag name of a
raw tag slice such as `"<script src=x>"`, with enclosing `/` stripped. -/
def getTagName (tagHtml : List Char) : List Char :=
  let tagName :=
    match listSpaceIndex tagHtml with
    | none => sliceList tagHtml 1 (tagHtml.length - 1)
    | some i => sliceList tagHtml 1 (i + 1)
  let tagName := (trimList tagName).map Char.toLower
  let tagName := if tagName.head? = some '/' then tagName.tail else tagName
  if tagName.getLast? = some '/' then tagName.dropLast else tagName

/-- The backward scan of parser.js deciding whether a quote character at
position `pos` opens an attribute value: walk left from `pos - 1` skipping
`' '`; the quote counts if the first non-space character is `=`.
`j` is the index currently inspected; walking off the string front
(`charAt` of a negative index in JS) yields no character. -/
def lookbackChar (html : List Char) : Nat → Option Char
  | 0 =>
      match html.get? 0 with
      | some c => if c = ' ' then none else some c
      | none => none
  | j + 1 =>
      match html.get? (j + 1) with
      | some c => if c = ' ' then lookbackChar html j else some c
      | none => none

/-- Whether a quote at position `pos` follows `=` (with spaces between). -/
def quoteOpens (html : List Char) (pos : Nat) : Bool :=
  if pos = 0 then false
  else lookbackChar html (pos - 1) = some '='

/-- The mutable locals of js-xss `parseTag` together with the
`StripTagBody` state threaded through `onIgnoreTag`. -/
structure XState where
  lastIndex : Nat
  tagStart : Option Nat
  quoteStart : Option Char
  out : List Char
  removeList : List (Nat × Nat)
  posStart : Option Nat
deriving DecidableEq

/-- Processing of one complete tag ending at position `pos` (the branch of
parser.js taken at `>` or at the last character): flush the pending text
through `escapeHtml`, cut out the raw tag, and apply the effective
`onTag` of this configuration — every tag is ignored; `script` tags emit
`[removed]`/`[/removed]` markers and record the body span (`StripTagBody`
with its `!posStart` JS-falsiness quirk, under which a recorded position 0
counts as unset); all other tags are stripped to the empty string. -/
def processTag (html : List Char) (ts pos : Nat) (st : XState) : XState :=
  let out1 := st.out ++ escapeHtmlList (sliceList html st.lastIndex ts)
  let tagHtml := sliceList html ts (pos + 1)
  let closing : Bool := tagHtml.take 2 = ['<', '/']
  let position := out1.length
  if getTagName tagHtml = "script".data then
    if closing then
      let start := match st.posStart with | some p => p | none => position
      { lastIndex := pos + 1, tagStart := none, quoteStart := st.quoteStart,
        out := out1 ++ "[/removed]".data,
        removeList := st.removeList ++ [(start, position + 10)],
        posStart := none }
    else
      let ps :=
        match st.posStart with
        | none => some position
        | some 0 => some position
        | some p => some p
      { lastIndex := pos + 1, tagStart := none, quoteStart := st.quoteStart,
        out := out1 ++ "[removed]".data,
        removeList := st.removeList, posStart := ps }
  else
    { lastIndex := pos + 1, tagStart := none, quoteStart := st.quoteStart,
      out := out1, removeList := st.removeList, posStart := st.posStart }

/-- The character loop of js-xss `parseTag`.  `rest` is the suffix of
`html` starting at `pos` (kept structural so that the definition computes
by kernel reduction); an empty `rest` after the current character means
`currentPos === len - 1`, at which parser.js also closes a pending tag. -/
def parseTagAux (html : List Char) : List Char → Nat → XState → XState
  | [], _, st => st
  | c :: rest, pos, st =>
    match st.tagStart with
    | none =>
        if c = '<' then
          parseTagAux html rest (pos + 1) { st with tagStart := some pos }
        else
          parseTagAux html rest (pos + 1) st
    | some ts =>
        match st.quoteStart with
        | none =>
            if c = '<' then
              parseTagAux html rest (pos + 1)
                { st with
                  out := st.out ++ escapeHtmlList (sliceList html st.lastIndex pos),
                  tagStart := some pos, lastIndex := pos }
            else if c = '>' || rest.isEmpty then
              parseTagAux html rest (pos + 1) (processTag html ts pos st)
            else if c = Char.ofNat 34 || c = Char.ofNat 39 then
              if quoteOpens html pos then
                parseTagAux html rest (pos + 1) { st with quoteStart := some c }
              else
                parseTagAux html rest (pos + 1) st
            else
              parseTagAux html rest (pos + 1) st
        | some q =>
            if c = q then
              parseTagAux html rest (pos + 1) { st with quoteStart := none }
            else
              parseTagAux html rest (pos + 1) st

/-- js-xss `parseTag`: run the loop from position 0 and flush the trailing
text (`if (lastIndex < len) rethtml += escapeHtml(html.substr(lastIndex))`). -/
def parseTag (html : List Char) : XState :=
  let st := parseTagAux html html 0 ⟨0, none, none, [], [], none⟩
  if st.lastIndex < html.length then
    { st with out := st.out ++ escapeHtmlList (html.drop st.lastIndex) }
  else st

/-- The `remove` pass of `StripTagBody`: cut the recorded `[start, end)`
spans out of the parsed output. -/
def removeRangesAux (out : List Char) : List (Nat × Nat) → Nat → List Char
  | [], lastPos => out.drop lastPos
  | (a, b) :: rl, lastPos => sliceList out lastPos a ++ removeRangesAux out rl b

/-- Cut all recorded spans, starting from position 0. -/
def removeRanges (out : List Char) (rl : List (Nat × Nat)) : List Char :=
  removeRangesAux out rl 0

/-- Search for the comment terminator `-->`; on success return the suffix
following it. -/
def findCommentClose : List Char → Option (List Char)
  | [] => none
  | c :: rest =>
      if c = '-' && rest.take 2 = ['-', '>'] then some (rest.drop 2)
      else findCommentClose rest

/-- js-xss `stripCommentTag`: the global non-greedy replacement of
`<!--[\s\S]*?-->` by the empty string, written with explicit fuel (one unit
per character consumed) so that it computes by kernel reduction. -/
def stripCommentAux : Nat → List Char → List Char
  | 0, l => l
  | _ + 1, [] => []
  | fuel + 1, c :: rest =>
      if c = '<' && rest.take 3 = ['!', '-', '-'] then
        match findCommentClose (rest.drop 3) with
        | some suffix => stripCommentAux fuel suffix
        | none => c :: rest
      else c :: stripCommentAux fuel rest

/-- js-xss `stripCommentTag` on a character list. -/
def stripCommentTag (l : List Char) : List Char := stripCommentAux l.length l

/-- `sanitizeMessage` (server.js:131-137): `xss(message, { whiteList: {},
stripIgnoreTag: true, stripIgnoreTagBody: ['script'] })`, i.e. strip
comments, parse and strip/escape tags, then remove recorded script bodies. -/
def sanitizeMessage (s : String) : String :=
  let html := stripCommentTag s.data
  let st := parseTag html
  ⟨removeRanges st.out st.removeList⟩

example : sanitizeMessage "hello" = "hello" := by decide
example : sanitizeMessage "<script>alert(1)</script>" = "" := by decide
example : sanitizeMessage "<b>ab" = "ab" := by decide
example : sanitizeMessage "a > b" = "a &gt; b" := by decide
example : validateMessage (.vStr "") = false := by decide
example : validateUsername (.vStr " a ") = true := by decide
example : jsTrim " a " = "a" := by decide

/-! ## JavaScript `Map` as an insertion-ordered association list

`users` and `messageLimiter` are JS `Map`s.  `Map.prototype.set` keeps the
original insertion position when overwriting an existing key and appends
fresh keys at the end; `values()` iterates in insertion order; `delete`
removes the entry. -/

/-- `Map.prototype.get`. -/
def mapGet {α : Type} (m : List (Nat × α)) (k : Nat) : Option α :=
  match m with
  | [] => none
  | (k', v) :: rest => if k' = k then some v else mapGet rest k

/-- `Map.prototype.set`: overwrite in place, or append a fresh key. -/
def mapSet {α : Type} (m : List (Nat × α)) (k : Nat) (v : α) : List (Nat × α) :=
  match m with
  | [] => [(k, v)]
  | (k', v') :: rest => if k' = k then (k, v) :: rest else (k', v') :: mapSet rest k v

/-- `Map.prototype.delete`. -/
def mapDelete {α : Type} (m : List (Nat × α)) (k : Nat) : List (Nat × α) :=
  m.filter (fun p => !(p.1 = k))

/-- The keys, in insertion order. -/
def mapKeys {α : Type} (m : List (Nat × α)) : List Nat := m.map Prod.fst

/-- `Map.prototype.values()`, in insertion order (`Array.from(m.values())`). -/
def mapValues {α : Type} (m : List (Nat × α)) : List α := m.map Prod.snd

/-! ## Rate limiter (server.js:97-115) -/

/-- One `messageLimiter` entry: `{ count, resetTime }`. -/
structure RateEntry where
  count : Nat
  resetTime : Nat
deriving DecidableEq

/-- `MESSAGE_LIMIT` (server.js:99). -/
def MESSAGE_LIMIT : Nat := 30

/-- `MESSAGE_WINDOW` (server.js:100): 60 seconds in milliseconds. -/
def MESSAGE_WINDOW : Nat := 60 * 1000

/-- `checkMessageRate` (server.js:102-115).  `now` is `Date.now()`; returns
the admission verdict and the updated limiter map (the entry is stored even
when the call is over the cap). -/
def checkMessageRate (limiter : List (Nat × RateEntry)) (socketId now : Nat) :
    Bool × List (Nat × RateEntry) :=
  let userLimits := (mapGet limiter socketId).getD ⟨0, now + MESSAGE_WINDOW⟩
  let userLimits :=
    if now > userLimits.resetTime then RateEntry.mk 0 (now + MESSAGE_WINDOW)
    else userLimits
  let userLimits := RateEntry.mk (userLimits.count + 1) userLimits.resetTime
  (decide (userLimits.count ≤ MESSAGE_LIMIT), mapSet limiter socketId userLimits)

/-- Fold `checkMessageRate` over a list of call times for one socket,
collecting the verdicts. -/
def runRate (limiter : List (Nat × RateEntry)) (socketId : Nat) :
    List Nat → List Bool × List (Nat × RateEntry)
  | [] => ([], limiter)
  | t :: ts =>
      let r := checkMessageRate limiter socketId t
      let tailRun := runRate r.2 socketId ts
      (r.1 :: tailRun.1, tailRun.2)

/-! ## Server state and socket event handlers (server.js:227-387) -/

/-- One `users` entry (server.js:266-270). -/
structure UserInfo where
  username : String
  joinTime : Nat
  messageCount : Nat
deriving DecidableEq

/-- The per-connection locals of the `io.on('connection')` closure:
`connectionValidated` and whether `validationTimeout` is still pending
(armed).  `clearTimeout` disarms; firing also disarms. -/
structure ConnState where
  validated : Bool
  timerArmed : Bool
deriving DecidableEq

/-- The file metadata attached to a message (`data.file`); the handlers
only inspect `filename` and `url` for truthiness, so missing/empty fields
are modelled as `""`. -/
structure FileRef where
  filename : String
  url : String
deriving DecidableEq

/-- The payload of a `'chat message'` event (server.js:286). -/
structure ChatData where
  message : JsValue
  messageType : JsValue
  file : Option FileRef
deriving DecidableEq

/-- The payload of a `'file message'` event (server.js:320). -/
structure FileData where
  message : JsValue
  file : Option FileRef
deriving DecidableEq

/-- `data.messageType || 'text'` (server.js:310). -/
def jsOrText (v : JsValue) : String :=
  match v with
  | .vStr s => if s = "" then "text" else s
  | _ => "text"

/-- An outbound socket.io event. Timestamps (`new Date().toLocaleTimeString()`)
are modelled as the server-side time `now` at which the handler ran. -/
inductive OutEvent where
  | errorEv (msg : String)
  | userJoined (username message : String) (timestamp : Nat)
  | usersList (names : List String)
  | chatMsg (username message messageType : String) (file : Option FileRef) (timestamp : Nat)
  | userTyping (username : String)
  | userStopTyping
  | userLeft (username message : String) (timestamp : Nat)
deriving DecidableEq

/-- A fan-out performed by a handler: `socket.emit` (to the originator),
`socket.broadcast.emit` (to every live connection except the originator),
or `io.emit` (to every live connection). -/
inductive Emit where
  | toOne (target : Nat) (ev : OutEvent)
  | toAllExcept (sender : Nat) (ev : OutEvent)
  | toAll (ev : OutEvent)
deriving DecidableEq

/-- `BANNED_USERNAMES` (server.js:229). -/
def BANNED_USERNAMES : List String :=
  ["admin", "moderator", "system", "bot", "null", "undefined"]

/-- The whole server state: the live sockets with their connection-scoped
locals, the `users` registry and the `messageLimiter` map. -/
structure ServerState where
  conns : List (Nat × ConnState)
  users : List (Nat × UserInfo)
  messageLimiter : List (Nat × RateEntry)
deriving DecidableEq

/-- The state before any connection. -/
def initState : ServerState := ⟨[], [], []⟩

/-- Whether socket `s` is currently connected. -/
def isLive (st : ServerState) (s : Nat) : Bool := (mapGet st.conns s).isSome

/-- The `connectionValidated` local of socket `s`. -/
def connValidated (st : ServerState) (s : Nat) : Bool :=
  match mapGet st.conns s with
  | some cs => cs.validated
  | none => false

/-- Whether `validationTimeout` of socket `s` is still pending. -/
def timerArmedFor (st : ServerState) (s : Nat) : Bool :=
  match mapGet st.conns s with
  | some cs => cs.timerArmed
  | none => false

/-- `clearTimeout(validationTimeout)` for socket `s`. -/
def disarmTimer (st : ServerState) (s : Nat) : ServerState :=
  match mapGet st.conns s with
  | some cs => { st with conns := mapSet st.conns s ⟨cs.validated, false⟩ }
  | none => st

/-- `connectionValidated = true` for socket `s`. -/
def setValidated (st : ServerState) (s : Nat) : ServerState :=
  match mapGet st.conns s with
  | some cs => { st with conns := mapSet st.conns s ⟨true, cs.timerArmed⟩ }
  | none => st

/-- The roster payload: `Array.from(users.values()).map(u => u.username)`. -/
def rosterNames (users : List (Nat × UserInfo)) : List String :=
  (mapValues users).map UserInfo.username

/-- The `'join'` handler (server.js:243-284).  Note that
`clearTimeout(validationTimeout)` runs before any validation, so even a
failed join disarms the deadline timer. -/
def handleJoin (st : ServerState) (s : Nat) (username : JsValue) (now : Nat) :
    ServerState × List Emit :=
  let st := disarmTimer st s
  if !(validateUsername username) then
    (st, [.toOne s (.errorEv "Invalid username")])
  else
    let cleanUsername := sanitizeMessage (jsTrim (jsStr username))
    if BANNED_USERNAMES.contains (strToLower cleanUsername) then
      (st, [.toOne s (.errorEv "Username not allowed")])
    else if (mapValues st.users).any
        (fun u => strToLower u.username = strToLower cleanUsername) then
      (st, [.toOne s (.errorEv "Username already taken")])
    else
      let st := setValidated st s
      let users' := mapSet st.users s ⟨cleanUsername, now, 0⟩
      ({ st with users := users' },
       [.toAllExcept s (.userJoined cleanUsername (cleanUsername ++ " joined the chat") now),
        .toAll (.usersList (rosterNames users'))])

/-- The `'chat message'` handler (server.js:286-318). -/
def handleChatMessage (st : ServerState) (s : Nat) (data : ChatData) (now : Nat) :
    ServerState × List Emit :=
  match mapGet st.users s, connValidated st s with
  | some userInfo, true =>
      let r := checkMessageRate st.messageLimiter s now
      let st := { st with messageLimiter := r.2 }
      if !r.1 then
        (st, [.toOne s (.errorEv "Too many messages. Please slow down.")])
      else if !(validateMessage data.message) then
        (st, [.toOne s (.errorEv "Invalid message")])
      else
        let sanitizedMessage := sanitizeMessage (jsStr data.message)
        let userInfo' : UserInfo :=
          ⟨userInfo.username, userInfo.joinTime, userInfo.messageCount + 1⟩
        ({ st with users := mapSet st.users s userInfo' },
         [.toAll (.chatMsg userInfo'.username sanitizedMessage
            (jsOrText data.messageType) data.file now)])
  | _, _ => (st, [])

/-- The `'file message'` handler (server.js:320-355).  The rate limiter is
consulted (and its entry stored) before the file fields are checked; an
optional caption is sanitized only if it validates. -/
def handleFileMessage (st : ServerState) (s : Nat) (data : FileData) (now : Nat) :
    ServerState × List Emit :=
  match mapGet st.users s, connValidated st s with
  | some userInfo, true =>
      let r := checkMessageRate st.messageLimiter s now
      let st := { st with messageLimiter := r.2 }
      if !r.1 then
        (st, [.toOne s (.errorEv "Too many messages. Please slow down.")])
      else
        let sanitizedMessage :=
          if jsTruthy data.message && validateMessage data.message then
            sanitizeMessage (jsStr data.message)
          else ""
        match data.file with
        | some f =>
            if f.filename = "" || f.url = "" then
              (st, [.toOne s (.errorEv "Invalid file data")])
            else
              let userInfo' : UserInfo :=
                ⟨userInfo.username, userInfo.joinTime, userInfo.messageCount + 1⟩
              ({ st with users := mapSet st.users s userInfo' },
               [.toAll (.chatMsg userInfo'.username sanitizedMessage "file" (some f) now)])
        | none => (st, [.toOne s (.errorEv "Invalid file data")])
  | _, _ => (st, [])

/-- The `'typing'` handler (server.js:357-362): looks the sender up in the
registry before broadcasting. -/
def handleTyping (st : ServerState) (s : Nat) : ServerState × List Emit :=
  match mapGet st.users s, connValidated st s with
  | some userInfo, true => (st, [.toAllExcept s (.userTyping userInfo.username)])
  | _, _ => (st, [])

/-- The `'stop typing'` handler (server.js:364-368): checks only the
connection-local `connectionValidated` flag — no registry lookup. -/
def handleStopTyping (st : ServerState) (s : Nat) : ServerState × List Emit :=
  if connValidated st s then (st, [.toAllExcept s .userStopTyping])
  else (st, [])

/-- The `'disconnect'` handler (server.js:370-386) followed by the removal
of the transport connection itself. -/
def handleDisconnect (st : ServerState) (s : Nat) (now : Nat) :
    ServerState × List Emit :=
  let r : ServerState × List Emit :=
    match mapGet st.users s with
    | some userInfo =>
        let users' := mapDelete st.users s
        ({ st with
            users := users',
            messageLimiter := mapDelete st.messageLimiter s },
         [.toAllExcept s (.userLeft userInfo.username (userInfo.username ++ " left the chat") now),
          .toAll (.usersList (rosterNames users'))])
    | none => (st, [])
  ({ r.1 with conns := mapDelete r.1.conns s }, r.2)

/-- An externally triggered event: a transport connect/disconnect, an
inbound socket.io event, or the validation-deadline timer firing.  `now`
is the server clock at handling time. -/
inductive Event where
  | connect (s : Nat)
  | join (s : Nat) (username : JsValue) (now : Nat)
  | chatMessage (s : Nat) (data : ChatData) (now : Nat)
  | fileMessage (s : Nat) (data : FileData) (now : Nat)
  | typing (s : Nat)
  | stopTyping (s : Nat)
  | disconnect (s : Nat) (now : Nat)
  | timerFire (s : Nat) (now : Nat)

/-- One step of the server.  socket.io runs handlers only for live sockets
(and `connect` only for fresh ids); the validation timer can fire only
while pending.  The timer callback (server.js:237-241) disarms and, when
the connection is not validated, calls `socket.disconnect(true)`, which in
turn runs the `'disconnect'` handler.  Timer timing (30s) is abstracted:
the fire event may occur at any time while the timer is armed. -/
def step (st : ServerState) : Event → ServerState × List Emit
  | .connect s =>
      if isLive st s then (st, [])
      else ({ st with conns := mapSet st.conns s ⟨false, true⟩ }, [])
  | .join s username now =>
      if isLive st s then handleJoin st s username now else (st, [])
  | .chatMessage s data now =>
      if isLive st s then handleChatMessage st s data now else (st, [])
  | .fileMessage s data now =>
      if isLive st s then handleFileMessage st s data now else (st, [])
  | .typing s => if isLive st s then handleTyping st s else (st, [])
  | .stopTyping s => if isLive st s then handleStopTyping st s else (st, [])
  | .disconnect s now =>
      if isLive st s then handleDisconnect st s now else (st, [])
  | .timerFire s now =>
      if timerArmedFor st s then
        let st := disarmTimer st s
        if connValidated st s then (st, [])
        else handleDisconnect st s now
      else (st, [])

/-- The state after an event. -/
def stepState (st : ServerState) (ev : Event) : ServerState := (step st ev).1

/-- The emissions of an event. -/
def stepEmits (st : ServerState) (ev : Event) : List Emit := (step st ev).2

/-- The reachable server states. -/
inductive Reachable : ServerState → Prop where
  | init : Reachable initState
  | next {st : ServerState} (h : Reachable st) (ev : Event) : Reachable (stepState st ev)

/-- Run a list of events from the initial state. -/
def runEvents (evs : List Event) : ServerState :=
  evs.foldl stepState initState

/-- The ids of the live connections. -/
def liveIds (st : ServerState) : List Nat := mapKeys st.conns

/-- The set of live sockets an emission is delivered to, given the live
ids at delivery time. -/
def emitTargets (ids : List Nat) : Emit → List Nat
  | .toOne t _ => ids.filter (fun x => x = t)
  | .toAllExcept s _ => ids.filter (fun x => !(x = s))
  | .toAll _ => ids

example :
    runEvents [.connect 0, .join 0 (.vStr " a ") 5] =
      ⟨[(0, ⟨true, false⟩)], [(0, ⟨"a", 5, 0⟩)], []⟩ := by decide

example :
    step (runEvents [.connect 0, .join 0 (.vStr "ab") 0, .connect 1])
      (.join 1 (.vStr "<b>ab") 7) =
      (⟨[(0, ⟨true, false⟩), (1, ⟨false, false⟩)], [(0, ⟨"ab", 0, 0⟩)], []⟩,
       [.toOne 1 (.errorEv "Invalid username")]) := by decide

/-! ## Association-list lemmas for the JS `Map` model -/

/-- Distinctness of the keys — the well-formedness every JS `Map` enjoys. -/
def keysNodup {α : Type} (m : List (Nat × α)) : Prop := (mapKeys m).Nodup

theorem mapGet_mem {α : Type} {m : List (Nat × α)} {k : Nat} {v : α}
    (h : mapGet m k = some v) : (k, v) ∈ m := by
  induction m with
  | nil => simp [mapGet] at h
  | cons hd tl ih =>
      obtain ⟨k', v'⟩ := hd
      by_cases hk : k' = k
      · subst hk
        simp [mapGet] at h
        simp [h]
      · simp [mapGet, hk] at h
        exact List.mem_cons_of_mem _ (ih h)

theorem mem_keys_of_mem {α : Type} {m : List (Nat × α)} {k : Nat} {v : α}
    (h : (k, v) ∈ m) : k ∈ mapKeys m :=
  List.mem_map.2 ⟨(k, v), h, rfl⟩

theorem mapGet_eq_none_iff {α : Type} {m : List (Nat × α)} {k : Nat} :
    mapGet m k = none ↔ ∀ p ∈ m, p.1 ≠ k := by
  induction m with
  | nil => simp [mapGet]
  | cons hd tl ih =>
      obtain ⟨k', v'⟩ := hd
      by_cases hk : k' = k
      · subst hk
        simp [mapGet]
      · simp [mapGet, hk, ih]

theorem mapGet_isSome_of_mem {α : Type} {m : List (Nat × α)} {k : Nat} {v : α}
    (h : (k, v) ∈ m) : (mapGet m k).isSome := by
  cases hg : mapGet m k with
  | some w => simp
  | none => exact absurd rfl ((mapGet_eq_none_iff.1 hg) (k, v) h)

theorem mapGet_mapSet_self {α : Type} {m : List (Nat × α)} {k : Nat} {v : α} :
    mapGet (mapSet m k v) k = some v := by
  induction m with
  | nil => simp [mapSet, mapGet]
  | cons hd tl ih =>
      obtain ⟨k', v'⟩ := hd
      by_cases hk : k' = k
      · subst hk; simp [mapSet, mapGet]
      · simp [mapSet, mapGet, hk, ih]

theorem mapGet_mapSet_ne {α : Type} {m : List (Nat × α)} {k a : Nat} {v : α}
    (h : a ≠ k) : mapGet (mapSet m k v) a = mapGet m a := by
  induction m with
  | nil => simp [mapSet, mapGet, Ne.symm h]
  | cons hd tl ih =>
      obtain ⟨k', v'⟩ := hd
      by_cases hk : k' = k
      · subst hk
        simp [mapSet, mapGet, Ne.symm h]
      · simp [mapSet, mapGet, hk, ih]

theorem mem_mapSet {α : Type} {m : List (Nat × α)} {k a : Nat} {v b : α}
    (hn : keysNodup m) (h : (a, b) ∈ mapSet m k v) :
    (a = k ∧ b = v) ∨ ((a, b) ∈ m ∧ a ≠ k) := by
  induction m with
  | nil =>
      simp [mapSet] at h
      exact Or.inl ⟨h.1, h.2⟩
  | cons hd tl ih =>
      obtain ⟨k', v'⟩ := hd
      simp only [keysNodup, mapKeys, List.map_cons, List.nodup_cons] at hn
      by_cases hk : k' = k
      · have hset : mapSet ((k', v') :: tl) k v = (k, v) :: tl := by
          simp [mapSet, hk]
        rw [hset] at h
        rcases List.mem_cons.1 h with h' | h'
        · exact Or.inl ⟨congrArg Prod.fst h', congrArg Prod.snd h'⟩
        · refine Or.inr ⟨List.mem_cons_of_mem _ h', ?_⟩
          intro hak
          refine hn.1 ?_
          rw [hk, ← hak]
          exact List.mem_map.2 ⟨(a, b), h', rfl⟩
      · simp only [mapSet, hk, if_false] at h
        rcases List.mem_cons.1 h with h' | h'
        · refine Or.inr ⟨?_, ?_⟩
          · rw [h']
            exact List.mem_cons_self _ _
          · intro hak
            exact hk ((congrArg Prod.fst h').symm.trans hak).symm.symm
        · rcases ih hn.2 h' with h'' | h''
          · exact Or.inl h''
          · exact Or.inr ⟨List.mem_cons_of_mem _ h''.1, h''.2⟩
theorem mem_mapSet_of_mem {α : Type} {m : List (Nat × α)} {k a : Nat} {v b : α}
    (hne : a ≠ k) (h : (a, b) ∈ m) : (a, b) ∈ mapSet m k v := by
  induction m with
  | nil => simp at h
  | cons hd tl ih =>
      obtain ⟨k', v'⟩ := hd
      by_cases hk : k' = k
      · subst hk
        simp only [mapSet, if_pos rfl]
        rcases List.mem_cons.1 h with h' | h'
        · exact absurd (congrArg Prod.fst h') hne
        · exact List.mem_cons_of_mem _ h'
      · simp only [mapSet, hk, if_false]
        rcases List.mem_cons.1 h with h' | h'
        · exact h' ▸ List.mem_cons_self _ _
        · exact List.mem_cons_of_mem _ (ih h')

theorem self_mem_mapSet {α : Type} {m : List (Nat × α)} {k : Nat} {v : α} :
    (k, v) ∈ mapSet m k v :=
  mapGet_mem mapGet_mapSet_self

theorem mem_keys_mapSet {α : Type} {m : List (Nat × α)} {k a : Nat} {v : α}
    (h : a ∈ mapKeys (mapSet m k v)) : a ∈ mapKeys m ∨ a = k := by
  induction m with
  | nil => simpa [mapSet, mapKeys] using h
  | cons hd tl ih =>
      obtain ⟨k', v'⟩ := hd
      by_cases hk : k' = k
      · have hset : mapSet ((k', v') :: tl) k v = (k, v) :: tl := by
          simp [mapSet, hk]
        rw [hset] at h
        simp only [mapKeys, List.map_cons, List.mem_cons] at h ⊢
        rcases h with h | h
        · exact Or.inr h
        · exact Or.inl (Or.inr h)
      · simp only [mapSet, hk, if_false, mapKeys, List.map_cons, List.mem_cons] at h ⊢
        rcases h with h | h
        · exact Or.inl (Or.inl h)
        · rcases ih h with h' | h'
          · exact Or.inl (Or.inr h')
          · exact Or.inr h'
theorem keysNodup_mapSet {α : Type} {m : List (Nat × α)} {k : Nat} {v : α}
    (hn : keysNodup m) : keysNodup (mapSet m k v) := by
  induction m with
  | nil => simp [mapSet, keysNodup, mapKeys]
  | cons hd tl ih =>
      obtain ⟨k', v'⟩ := hd
      simp only [keysNodup, mapKeys, List.map_cons, List.nodup_cons] at hn
      by_cases hk : k' = k
      · have hset : mapSet ((k', v') :: tl) k v = (k, v) :: tl := by
          simp [mapSet, hk]
        rw [show keysNodup (mapSet ((k', v') :: tl) k v) =
              keysNodup ((k, v) :: tl) from congrArg _ hset]
        simp only [keysNodup, mapKeys, List.map_cons, List.nodup_cons]
        exact ⟨hk ▸ hn.1, hn.2⟩
      · have hset : mapSet ((k', v') :: tl) k v = (k', v') :: mapSet tl k v := by
          simp [mapSet, hk]
        rw [show keysNodup (mapSet ((k', v') :: tl) k v) =
              keysNodup ((k', v') :: mapSet tl k v) from congrArg _ hset]
        simp only [keysNodup, mapKeys, List.map_cons, List.nodup_cons]
        refine ⟨?_, ih hn.2⟩
        intro hmem
        rcases mem_keys_mapSet hmem with h' | h'
        · exact hn.1 h'
        · exact hk h'
theorem mem_mapDelete {α : Type} {m : List (Nat × α)} {k a : Nat} {b : α} :
    (a, b) ∈ mapDelete m k ↔ (a, b) ∈ m ∧ a ≠ k := by
  simp [mapDelete, List.mem_filter]

theorem keysNodup_mapDelete {α : Type} {m : List (Nat × α)} {k : Nat}
    (hn : keysNodup m) : keysNodup (mapDelete m k) :=
  List.Nodup.sublist (List.Sublist.map _ (List.filter_sublist m)) hn

theorem mapGet_mapDelete {α : Type} {m : List (Nat × α)} {k a : Nat} :
    mapGet (mapDelete m k) a = if a = k then none else mapGet m a := by
  induction m with
  | nil => simp [mapDelete, mapGet]
  | cons hd tl ih =>
      obtain ⟨k', v'⟩ := hd
      by_cases hk : k' = k
      · have hdel : mapDelete ((k', v') :: tl) k = mapDelete tl k := by
          simp [mapDelete, hk]
        rw [hdel, ih]
        rcases eq_or_ne a k with ha | ha
        · simp [ha]
        · have hka : ¬ (k' = a) := fun hh => ha (hh.symm.trans hk)
          simp [ha, mapGet, hka]
      · have hdel : mapDelete ((k', v') :: tl) k = (k', v') :: mapDelete tl k := by
          simp [mapDelete, hk]
        rcases eq_or_ne a k' with ha | ha
        · have hak : ¬ (a = k) := fun hh => hk ((ha.symm.trans hh))
          rw [hdel]
          simp [mapGet, hak, ha.symm]
        · simp [hdel, mapGet, Ne.symm ha, ih]
theorem mapDelete_eq_self {α : Type} {m : List (Nat × α)} {k : Nat}
    (h : mapGet m k = none) : mapDelete m k = m := by
  rw [mapDelete, List.filter_eq_self]
  intro p hp
  simpa using (mapGet_eq_none_iff.1 h) p hp

theorem mem_values_mapSet {α : Type} {m : List (Nat × α)} {k : Nat} {v u : α}
    (h : u ∈ mapValues (mapSet m k v)) : u = v ∨ u ∈ mapValues m := by
  induction m with
  | nil => simpa [mapSet, mapValues] using h
  | cons hd tl ih =>
      obtain ⟨k', v'⟩ := hd
      by_cases hk : k' = k
      · subst hk
        simp [mapSet, mapValues] at h ⊢
        tauto
      · simp only [mapSet, hk, if_false, mapValues, List.map_cons, List.mem_cons] at h ⊢
        rcases h with h | h
        · tauto
        · rcases ih h with h' | h' <;> tauto

theorem mem_values_iff {α : Type} {m : List (Nat × α)} {u : α} :
    u ∈ mapValues m ↔ ∃ k, (k, u) ∈ m := by
  simp only [mapValues, List.mem_map]
  constructor
  · rintro ⟨⟨k, w⟩, hm, rfl⟩
    exact ⟨k, hm⟩
  · rintro ⟨k, hm⟩
    exact ⟨(k, u), hm, rfl⟩

/-! ## Sanitizer lemmas

The two facts everything else rests on: the sanitizer never outputs a tag
delimiter, and it is the identity on delimiter-free inputs.  Idempotence
and the username-preservation lemma follow. -/

/-- No tag delimiter occurs in the list. -/
abbrev noDelims (l : List Char) : Prop := '<' ∉ l ∧ '>' ∉ l

theorem noDelims_nil : noDelims [] := by simp [noDelims]

theorem noDelims_append {a b : List Char} (ha : noDelims a) (hb : noDelims b) :
    noDelims (a ++ b) := by
  unfold noDelims at *
  simp [List.mem_append, ha.1, ha.2, hb.1, hb.2]

theorem escChar_noDelims (c : Char) : noDelims (escChar c) := by
  unfold escChar
  by_cases h1 : c = '<'
  · simp [h1]
    decide
  · by_cases h2 : c = '>'
    · simp [h1, h2]
      decide
    · simp [h1, h2, noDelims]
      exact ⟨Ne.symm h1, Ne.symm h2⟩

theorem escapeHtmlList_noDelims (l : List Char) : noDelims (escapeHtmlList l) := by
  induction l with
  | nil => exact noDelims_nil
  | cons c rest ih => exact noDelims_append (escChar_noDelims c) ih

theorem processTag_noDelims {html : List Char} {ts pos : Nat} {st : XState}
    (h : noDelims st.out) : noDelims (processTag html ts pos st).out := by
  have h1 : noDelims (st.out ++ escapeHtmlList (sliceList html st.lastIndex ts)) :=
    noDelims_append h (escapeHtmlList_noDelims _)
  simp only [processTag]
  split
  · split
    · exact noDelims_append h1 (by decide)
    · exact noDelims_append h1 (by decide)
  · exact h1

theorem parseTagAux_noDelims (html : List Char) :
    ∀ (rest : List Char) (pos : Nat) (st : XState), noDelims st.out →
      noDelims (parseTagAux html rest pos st).out := by
  intro rest
  induction rest with
  | nil =>
      intro pos st h
      simpa [parseTagAux] using h
  | cons c r ih =>
      intro pos st h
      obtain ⟨li, ts, qs, out, rl, ps⟩ := st
      cases ts with
      | none =>
          by_cases hc : c = '<'
          · simpa [parseTagAux, hc] using ih _ _ (by simpa using h)
          · simpa [parseTagAux, hc] using ih _ _ (by simpa using h)
      | some tsv =>
          cases qs with
          | none =>
              by_cases hc : c = '<'
              · have h2 : noDelims (out ++
                    escapeHtmlList (sliceList html li pos)) :=
                  noDelims_append (by simpa using h) (escapeHtmlList_noDelims _)
                simpa [parseTagAux, hc] using ih _ _ (by simpa using h2)
              · by_cases hgt : (c = '>' || r.isEmpty) = true
                · have h2 := @processTag_noDelims html tsv pos
                    ⟨li, some tsv, none, out, rl, ps⟩ (by simpa using h)
                  simpa [parseTagAux, hc, hgt] using ih _ _ h2
                · by_cases hq : (c = Char.ofNat 34 || c = Char.ofNat 39) = true
                  · by_cases ho : quoteOpens html pos
                    · simpa [parseTagAux, hc, hgt, hq, ho] using
                        ih _ _ (by simpa using h)
                    · simpa [parseTagAux, hc, hgt, hq, ho] using
                        ih _ _ (by simpa using h)
                  · simpa [parseTagAux, hc, hgt, hq] using
                      ih _ _ (by simpa using h)
          | some q =>
              by_cases hc : c = q
              · simpa [parseTagAux, hc] using ih _ _ (by simpa using h)
              · simpa [parseTagAux, hc] using ih _ _ (by simpa using h)

theorem parseTag_noDelims (html : List Char) : noDelims (parseTag html).out := by
  unfold parseTag
  have h0 := parseTagAux_noDelims html html 0 ⟨0, none, none, [], [], none⟩
    noDelims_nil
  by_cases hl : (parseTagAux html html 0 ⟨0, none, none, [], [], none⟩).lastIndex
      < html.length
  · simp only [hl, if_true]
    exact noDelims_append h0 (escapeHtmlList_noDelims _)
  · simpa [hl] using h0

theorem mem_sliceList {l : List Char} {a b : Nat} {c : Char}
    (h : c ∈ sliceList l a b) : c ∈ l :=
  List.mem_of_mem_take (List.mem_of_mem_drop h)

theorem removeRangesAux_noDelims {out : List Char} (h : noDelims out) :
    ∀ (rl : List (Nat × Nat)) (lastPos : Nat),
      noDelims (removeRangesAux out rl lastPos) := by
  intro rl
  induction rl with
  | nil =>
      intro lastPos
      exact ⟨fun hm => h.1 (List.mem_of_mem_drop hm),
             fun hm => h.2 (List.mem_of_mem_drop hm)⟩
  | cons hd tl ih =>
      intro lastPos
      obtain ⟨a, b⟩ := hd
      exact noDelims_append
        ⟨fun hm => h.1 (mem_sliceList hm), fun hm => h.2 (mem_sliceList hm)⟩
        (ih b)

/-- The sanitizer never emits a tag delimiter, whatever the input. -/
theorem sanitizeMessage_noDelims (s : String) :
    noDelims (sanitizeMessage s).data := by
  show noDelims (removeRanges (parseTag (stripCommentTag s.data)).out
    (parseTag (stripCommentTag s.data)).removeList)
  exact removeRangesAux_noDelims (parseTag_noDelims _) _ 0

theorem stripCommentAux_id {l : List Char} (h : '<' ∉ l) :
    ∀ fuel, stripCommentAux fuel l = l := by
  induction l with
  | nil => intro fuel; cases fuel <;> rfl
  | cons c rest ih =>
      intro fuel
      cases fuel with
      | zero => rfl
      | succ fuel =>
          have hc : ¬ (c = '<') := fun hh => h (hh ▸ List.mem_cons_self _ _)
          have hrest : '<' ∉ rest := fun hh => h (List.mem_cons_of_mem _ hh)
          show stripCommentAux (fuel + 1) (c :: rest) = c :: rest
          simp only [stripCommentAux]
          rw [if_neg (by simp [hc])]
          rw [ih hrest fuel]

theorem stripCommentTag_id {l : List Char} (h : '<' ∉ l) :
    stripCommentTag l = l :=
  stripCommentAux_id h l.length

theorem escapeHtmlList_id {l : List Char} (h : noDelims l) :
    escapeHtmlList l = l := by
  induction l with
  | nil => rfl
  | cons c rest ih =>
      have hc1 : ¬ (c = '<') := fun hh => h.1 (hh ▸ List.mem_cons_self _ _)
      have hc2 : ¬ (c = '>') := fun hh => h.2 (hh ▸ List.mem_cons_self _ _)
      have hrest : noDelims rest :=
        ⟨fun hh => h.1 (List.mem_cons_of_mem _ hh),
         fun hh => h.2 (List.mem_cons_of_mem _ hh)⟩
      simp [escapeHtmlList, escChar, hc1, hc2, ih hrest]

theorem parseTagAux_skip (html : List Char) :
    ∀ (rest : List Char) (pos : Nat) (st : XState), st.tagStart = none →
      (∀ c ∈ rest, c ≠ '<') → parseTagAux html rest pos st = st := by
  intro rest
  induction rest with
  | nil => intro pos st _ _; rfl
  | cons c r ih =>
      intro pos st hts hno
      obtain ⟨li, ts, qs, out, rl, ps⟩ := st
      simp at hts
      subst hts
      have hc : ¬ (c = '<') := hno c (List.mem_cons_self _ _)
      simp only [parseTagAux, hc, if_false]
      exact ih _ _ rfl (fun d hd => hno d (List.mem_cons_of_mem _ hd))

/-- Scanning an input without tag openers leaves the parser in its initial
state except that the whole input is flushed through `escapeHtml`. -/
theorem parseTag_skip {html : List Char} (h : ∀ c ∈ html, c ≠ '<') :
    parseTag html = ⟨0, none, none, escapeHtmlList html, [], none⟩ := by
  unfold parseTag
  rw [parseTagAux_skip html html 0 _ rfl h]
  cases html with
  | nil => simp [escapeHtmlList]
  | cons c rest => simp

/-- On delimiter-free input the sanitizer is the identity. -/
theorem sanitizeMessage_id {s : String} (h : noDelims s.data) :
    sanitizeMessage s = s := by
  obtain ⟨d⟩ := s
  have hno : ∀ c ∈ d, c ≠ '<' := fun c hc hh => h.1 (hh ▸ hc)
  show String.mk (removeRanges (parseTag (stripCommentTag d)).out
    (parseTag (stripCommentTag d)).removeList) = String.mk d
  rw [stripCommentTag_id h.1, parseTag_skip hno]
  rw [show (⟨0, none, none, escapeHtmlList d, [], none⟩ : XState).out =
        escapeHtmlList d from rfl]
  rw [escapeHtmlList_id h]
  show String.mk (d.drop 0) = String.mk d
  rw [List.drop_zero]

/-- The sanitizer is idempotent. -/
theorem sanitizeMessage_idem (x : String) :
    sanitizeMessage (sanitizeMessage x) = sanitizeMessage x :=
  sanitizeMessage_id (sanitizeMessage_noDelims x)

/-! ## Username helper lemmas -/

theorem mem_trimList {l : List Char} {c : Char} (h : c ∈ trimList l) : c ∈ l := by
  unfold trimList at h
  rw [List.mem_reverse] at h
  have h1 := (@List.dropWhile_sublist _ ((l.dropWhile isJsSpace).reverse)
    isJsSpace).mem h
  rw [List.mem_reverse] at h1
  exact (@List.dropWhile_sublist _ l isJsSpace).mem h1

theorem trimList_length_le (l : List Char) : (trimList l).length ≤ l.length := by
  unfold trimList
  calc ((l.dropWhile isJsSpace).reverse.dropWhile isJsSpace).reverse.length
      = ((l.dropWhile isJsSpace).reverse.dropWhile isJsSpace).length := by
        rw [List.length_reverse]
    _ ≤ (l.dropWhile isJsSpace).reverse.length :=
        (List.dropWhile_sublist _).length_le
    _ = (l.dropWhile isJsSpace).length := by rw [List.length_reverse]
    _ ≤ l.length := (List.dropWhile_sublist _).length_le

theorem isNameChar_no_delim {c : Char} (h : isNameChar c = true) :
    c ≠ '<' ∧ c ≠ '>' := by
  constructor
  · rintro rfl
    exact absurd h (by decide)
  · rintro rfl
    exact absurd h (by decide)

theorem validateUsername_spec {u : String}
    (h : validateUsername (.vStr u) = true) :
    2 ≤ u.length ∧ u.length ≤ 20 ∧ ∀ c ∈ u.data, isNameChar c = true := by
  simp only [validateUsername] at h
  by_cases h1 : (u.length < 2 || u.length > 20) = true
  · rw [if_pos h1] at h
    exact absurd h (by simp)
  · rw [if_neg h1] at h
    rw [List.all_eq_true] at h
    simp only [Bool.or_eq_true, decide_eq_true_eq, not_or, not_lt] at h1
    exact ⟨h1.1, not_lt.1 (by simpa using h1.2), h⟩

/-- The stored `cleanUsername` of a join with a format-valid raw name: the
sanitizer leaves the trimmed name unchanged, so it is a sanitizer fixed
point of length at most 20. -/
theorem cleanUsername_spec {u : String}
    (h : validateUsername (.vStr u) = true) :
    sanitizeMessage (jsTrim u) = jsTrim u ∧ (jsTrim u).length ≤ 20 := by
  obtain ⟨_, hlen, hchars⟩ := validateUsername_spec h
  have hnd : noDelims (jsTrim u).data := by
    constructor
    · intro hm
      have := hchars _ (mem_trimList hm)
      exact absurd this (by decide)
    · intro hm
      have := hchars _ (mem_trimList hm)
      exact absurd this (by decide)
  refine ⟨sanitizeMessage_id hnd, ?_⟩
  show (trimList u.data).length ≤ 20
  exact le_trans (trimList_length_le u.data) hlen

/-! ## The reachability invariant -/

/-- The state invariant maintained by every handler: JS-`Map`
well-formedness, users are validated live connections, case-insensitive
uniqueness and well-formedness of stored names, an armed deadline timer
implies a not-yet-validated connection, and a validated connection is
registered. -/
structure ServerInv (st : ServerState) : Prop where
  connsNodup : keysNodup st.conns
  usersNodup : keysNodup st.users
  usersLive : ∀ k u, mapGet st.users k = some u →
    ∃ cs, mapGet st.conns k = some cs ∧ cs.validated = true
  uniqueNames : ∀ k1 u1 k2 u2, mapGet st.users k1 = some u1 →
    mapGet st.users k2 = some u2 → k1 ≠ k2 →
    strToLower u1.username ≠ strToLower u2.username
  namesWF : ∀ k u, mapGet st.users k = some u →
    u.username.length ≤ 20 ∧ sanitizeMessage u.username = u.username ∧
    BANNED_USERNAMES.contains (strToLower u.username) = false
  armedUnvalidated : ∀ k cs, mapGet st.conns k = some cs →
    cs.timerArmed = true → cs.validated = false
  validatedRegistered : ∀ k cs, mapGet st.conns k = some cs →
    cs.validated = true → (mapGet st.users k).isSome

theorem serverInv_init : ServerInv initState := by
  constructor <;> first
    | exact List.nodup_nil
    | (intro k u h; simp [initState, mapGet] at h)
    | (intro k1 u1 k2 u2 h; simp [initState, mapGet] at h)

theorem disarmTimer_users (st : ServerState) (s : Nat) :
    (disarmTimer st s).users = st.users := by
  unfold disarmTimer
  split <;> rfl

theorem disarmTimer_limiter (st : ServerState) (s : Nat) :
    (disarmTimer st s).messageLimiter = st.messageLimiter := by
  unfold disarmTimer
  split <;> rfl

theorem mapGet_disarmTimer (st : ServerState) (s k : Nat) :
    mapGet (disarmTimer st s).conns k =
      if k = s then (mapGet st.conns s).map (fun cs => ⟨cs.validated, false⟩)
      else mapGet st.conns k := by
  unfold disarmTimer
  cases hg : mapGet st.conns s with
  | none =>
      rcases eq_or_ne k s with hk | hk
      · simp [hk, hg]
      · simp [hk]
  | some cs =>
      rcases eq_or_ne k s with hk | hk
      · subst hk
        simp [mapGet_mapSet_self, hg]
      · simp [mapGet_mapSet_ne hk, hk]

theorem setValidated_users (st : ServerState) (s : Nat) :
    (setValidated st s).users = st.users := by
  unfold setValidated
  split <;> rfl

theorem mapGet_setValidated (st : ServerState) (s k : Nat) :
    mapGet (setValidated st s).conns k =
      if k = s then (mapGet st.conns s).map (fun cs => ⟨true, cs.timerArmed⟩)
      else mapGet st.conns k := by
  unfold setValidated
  cases hg : mapGet st.conns s with
  | none =>
      rcases eq_or_ne k s with hk | hk
      · simp [hk, hg]
      · simp [hk]
  | some cs =>
      rcases eq_or_ne k s with hk | hk
      · subst hk
        simp [mapGet_mapSet_self, hg]
      · simp [mapGet_mapSet_ne hk, hk]

theorem keysNodup_disarm {st : ServerState} (s : Nat)
    (hn : keysNodup st.conns) : keysNodup (disarmTimer st s).conns := by
  unfold disarmTimer
  cases mapGet st.conns s with
  | none => exact hn
  | some cs => exact keysNodup_mapSet hn

theorem serverInv_disarm {st : ServerState} (s : Nat) (hI : ServerInv st) :
    ServerInv (disarmTimer st s) := by
  refine ⟨keysNodup_disarm s hI.connsNodup, ?_, ?_, ?_, ?_, ?_, ?_⟩
  · rw [disarmTimer_users]
    exact hI.usersNodup
  · intro k u hu
    rw [disarmTimer_users] at hu
    obtain ⟨cs, hcs, hval⟩ := hI.usersLive k u hu
    rw [mapGet_disarmTimer]
    rcases eq_or_ne k s with hk | hk
    · rw [if_pos hk]
      rw [hk] at hcs
      exact ⟨⟨cs.validated, false⟩, by simp [hcs], by simpa using hval⟩
    · rw [if_neg hk]
      exact ⟨cs, hcs, hval⟩
  · intro k1 u1 k2 u2 h1 h2 hk
    rw [disarmTimer_users] at h1 h2
    exact hI.uniqueNames k1 u1 k2 u2 h1 h2 hk
  · intro k u hu
    rw [disarmTimer_users] at hu
    exact hI.namesWF k u hu
  · intro k cs hcs harmed
    rw [mapGet_disarmTimer] at hcs
    rcases eq_or_ne k s with hk | hk
    · rw [if_pos hk] at hcs
      cases hg : mapGet st.conns s with
      | none => rw [hg] at hcs; simp at hcs
      | some cs0 =>
          rw [hg] at hcs
          simp only [Option.map_some'] at hcs
          have hcseq : cs = ⟨cs0.validated, false⟩ := (Option.some.inj hcs).symm
          rw [hcseq] at harmed
          simp at harmed
    · rw [if_neg hk] at hcs
      exact hI.armedUnvalidated k cs hcs harmed
  · intro k cs hcs hval
    rw [disarmTimer_users]
    rw [mapGet_disarmTimer] at hcs
    rcases eq_or_ne k s with hk | hk
    · rw [if_pos hk] at hcs
      cases hg : mapGet st.conns s with
      | none => rw [hg] at hcs; simp at hcs
      | some cs0 =>
          rw [hg] at hcs
          simp only [Option.map_some'] at hcs
          have hcseq : cs = ⟨cs0.validated, false⟩ := (Option.some.inj hcs).symm
          rw [hcseq] at hval
          simp only at hval
          rw [hk]
          exact hI.validatedRegistered s cs0 hg hval
    · rw [if_neg hk] at hcs
      exact hI.validatedRegistered k cs hcs hval

theorem handleDisconnect_some {st : ServerState} {s now : Nat} {userInfo : UserInfo}
    (hg : mapGet st.users s = some userInfo) :
    handleDisconnect st s now =
      (⟨mapDelete st.conns s, mapDelete st.users s, mapDelete st.messageLimiter s⟩,
       [.toAllExcept s (.userLeft userInfo.username
          (userInfo.username ++ " left the chat") now),
        .toAll (.usersList (rosterNames (mapDelete st.users s)))]) := by
  unfold handleDisconnect
  rw [hg]

theorem handleDisconnect_none {st : ServerState} {s now : Nat}
    (hg : mapGet st.users s = none) :
    handleDisconnect st s now =
      (⟨mapDelete st.conns s, st.users, st.messageLimiter⟩, []) := by
  unfold handleDisconnect
  rw [hg]

theorem serverInv_handleDisconnect {st : ServerState} (s now : Nat)
    (hI : ServerInv st) : ServerInv (handleDisconnect st s now).1 := by
  cases hg : mapGet st.users s with
  | some userInfo =>
      rw [handleDisconnect_some hg]
      refine ⟨keysNodup_mapDelete hI.connsNodup, keysNodup_mapDelete hI.usersNodup,
        ?_, ?_, ?_, ?_, ?_⟩
    
      · intro k u hu
        rw [show mapGet (mapDelete st.users s) k =
              if k = s then none else mapGet st.users k from mapGet_mapDelete] at hu
        by_cases hk : k = s
        · rw [if_pos hk] at hu; exact absurd hu (by simp)
        · rw [if_neg hk] at hu
          obtain ⟨cs, hcs, hv⟩ := hI.usersLive k u hu
          exact ⟨cs, by rw [mapGet_mapDelete, if_neg hk]; exact hcs, hv⟩
      · intro k1 u1 k2 u2 h1 h2 hk
        rw [mapGet_mapDelete] at h1 h2
        by_cases hk1 : k1 = s
        · rw [if_pos hk1] at h1; exact absurd h1 (by simp)
        · rw [if_neg hk1] at h1
          by_cases hk2 : k2 = s
          · rw [if_pos hk2] at h2; exact absurd h2 (by simp)
          · rw [if_neg hk2] at h2
            exact hI.uniqueNames k1 u1 k2 u2 h1 h2 hk
      · intro k u hu
        rw [mapGet_mapDelete] at hu
        by_cases hk : k = s
        · rw [if_pos hk] at hu; exact absurd hu (by simp)
        · rw [if_neg hk] at hu
          exact hI.namesWF k u hu
      · intro k cs hcs ha
        rw [mapGet_mapDelete] at hcs
        by_cases hk : k = s
        · rw [if_pos hk] at hcs; exact absurd hcs (by simp)
        · rw [if_neg hk] at hcs
          exact hI.armedUnvalidated k cs hcs ha
      · intro k cs hcs hv
        rw [mapGet_mapDelete] at hcs
        by_cases hk : k = s
        · rw [if_pos hk] at hcs; exact absurd hcs (by simp)
        · rw [if_neg hk] at hcs
          rw [mapGet_mapDelete, if_neg hk]
          exact hI.validatedRegistered k cs hcs hv
  | none =>
      rw [handleDisconnect_none hg]
      refine ⟨keysNodup_mapDelete hI.connsNodup, hI.usersNodup, ?_, hI.uniqueNames,
        hI.namesWF, ?_, ?_⟩
      · intro k u hu
        obtain ⟨cs, hcs, hv⟩ := hI.usersLive k u hu
        by_cases hk : k = s
        · rw [hk] at hu
          rw [hg] at hu
          exact absurd hu (by simp)
        · exact ⟨cs, by rw [mapGet_mapDelete, if_neg hk]; exact hcs, hv⟩
      · intro k cs hcs ha
        rw [mapGet_mapDelete] at hcs
        by_cases hk : k = s
        · rw [if_pos hk] at hcs; exact absurd hcs (by simp)
        · rw [if_neg hk] at hcs
          exact hI.armedUnvalidated k cs hcs ha
      · intro k cs hcs hv
        rw [mapGet_mapDelete] at hcs
        by_cases hk : k = s
        · rw [if_pos hk] at hcs; exact absurd hcs (by simp)
        · rw [if_neg hk] at hcs
          exact hI.validatedRegistered k cs hcs hv

theorem serverInv_limiter {st : ServerState} (lim : List (Nat × RateEntry))
    (hI : ServerInv st) : ServerInv ⟨st.conns, st.users, lim⟩ :=
  ⟨hI.connsNodup, hI.usersNodup, hI.usersLive, hI.uniqueNames, hI.namesWF,
   hI.armedUnvalidated, hI.validatedRegistered⟩

theorem serverInv_touchUser {st : ServerState} {s : Nat} {u u' : UserInfo}
    (hg : mapGet st.users s = some u) (hname : u'.username = u.username)
    (hI : ServerInv st) (lim : List (Nat × RateEntry)) :
    ServerInv ⟨st.conns, mapSet st.users s u', lim⟩ := by
  refine ⟨hI.connsNodup, keysNodup_mapSet hI.usersNodup, ?_, ?_, ?_,
    hI.armedUnvalidated, ?_⟩
  · intro k w hw
    by_cases hk : k = s
    · rw [hk] at hw ⊢
      exact hI.usersLive s u hg
    · rw [show mapGet (mapSet st.users s u') k = mapGet st.users k from
        mapGet_mapSet_ne hk] at hw
      exact hI.usersLive k w hw
  · intro k1 u1 k2 u2 h1 h2 hk
    by_cases hk1 : k1 = s
    · rw [hk1] at h1 hk
      rw [mapGet_mapSet_self] at h1
      have hu1 : u1 = u' := Option.some.inj h1.symm
      by_cases hk2 : k2 = s
      · exact absurd hk2.symm hk
      · rw [mapGet_mapSet_ne hk2] at h2
        rw [hu1, hname]
        exact hI.uniqueNames s u k2 u2 hg h2 hk
    · rw [mapGet_mapSet_ne hk1] at h1
      by_cases hk2 : k2 = s
      · rw [hk2] at h2 hk
        rw [mapGet_mapSet_self] at h2
        have hu2 : u2 = u' := Option.some.inj h2.symm
        rw [hu2, hname]
        exact hI.uniqueNames k1 u1 s u h1 hg hk
      · rw [mapGet_mapSet_ne hk2] at h2
        exact hI.uniqueNames k1 u1 k2 u2 h1 h2 hk
  · intro k w hw
    by_cases hk : k = s
    · rw [hk, mapGet_mapSet_self] at hw
      have hwu : w = u' := Option.some.inj hw.symm
      rw [hwu, hname]
      exact hI.namesWF s u hg
    · rw [mapGet_mapSet_ne hk] at hw
      exact hI.namesWF k w hw
  · intro k cs hcs hv
    by_cases hk : k = s
    · rw [hk, mapGet_mapSet_self]
      simp
    · rw [mapGet_mapSet_ne hk]
      exact hI.validatedRegistered k cs hcs hv

/-! ## Handler characterizations -/

/-- Shorthand for the stored name of a join payload. -/
def cleanNameOf (u : JsValue) : String := sanitizeMessage (jsTrim (jsStr u))

theorem handleJoin_invalid {st : ServerState} {s : Nat} {u : JsValue} {now : Nat}
    (hval : validateUsername u = false) :
    handleJoin st s u now = (disarmTimer st s, [.toOne s (.errorEv "Invalid username")]) := by
  simp [handleJoin, hval]

theorem handleJoin_banned {st : ServerState} {s : Nat} {u : JsValue} {now : Nat}
    (hval : validateUsername u = true)
    (hban : BANNED_USERNAMES.contains (strToLower (cleanNameOf u)) = true) :
    handleJoin st s u now = (disarmTimer st s, [.toOne s (.errorEv "Username not allowed")]) := by
  have hb : strToLower (cleanNameOf u) ∈ BANNED_USERNAMES := by
    simpa using hban
  simp [handleJoin, hval, cleanNameOf] at hb ⊢
  simp [hb]

theorem handleJoin_taken {st : ServerState} {s : Nat} {u : JsValue} {now : Nat}
    (hval : validateUsername u = true)
    (hban : BANNED_USERNAMES.contains (strToLower (cleanNameOf u)) = false)
    (htaken : ((mapValues st.users).any fun w =>
        strToLower w.username = strToLower (cleanNameOf u)) = true) :
    handleJoin st s u now = (disarmTimer st s, [.toOne s (.errorEv "Username already taken")]) := by
  have hb : strToLower (cleanNameOf u) ∉ BANNED_USERNAMES := by
    simpa using hban
  have ht : ∃ x ∈ mapValues st.users,
      strToLower x.username = strToLower (cleanNameOf u) := by
    simpa using htaken
  simp only [cleanNameOf] at hb ht
  simp [handleJoin, hval, hb, disarmTimer_users, ht]

theorem handleJoin_success {st : ServerState} {s : Nat} {u : JsValue} {now : Nat}
    (hval : validateUsername u = true)
    (hban : BANNED_USERNAMES.contains (strToLower (cleanNameOf u)) = false)
    (htaken : ((mapValues st.users).any fun w =>
        strToLower w.username = strToLower (cleanNameOf u)) = false) :
    handleJoin st s u now =
      ({ setValidated (disarmTimer st s) s with
          users := mapSet st.users s ⟨cleanNameOf u, now, 0⟩ },
       [.toAllExcept s (.userJoined (cleanNameOf u)
          (cleanNameOf u ++ " joined the chat") now),
        .toAll (.usersList (rosterNames (mapSet st.users s ⟨cleanNameOf u, now, 0⟩)))]) := by
  have hb : strToLower (cleanNameOf u) ∉ BANNED_USERNAMES := by
    simpa using hban
  have ht : ¬ ∃ x ∈ mapValues st.users,
      strToLower x.username = strToLower (cleanNameOf u) := by
    simpa using htaken
  simp only [cleanNameOf] at hb ht ⊢
  simp [handleJoin, hval, hb, disarmTimer_users, setValidated_users, ht]

theorem handleChat_notRegistered {st : ServerState} {s : Nat} {d : ChatData} {now : Nat}
    (h : mapGet st.users s = none ∨ connValidated st s = false) :
    handleChatMessage st s d now = (st, []) := by
  unfold handleChatMessage
  rcases h with h | h
  · rw [h]
  · rw [h]
    cases mapGet st.users s <;> rfl

theorem handleChat_rate {st : ServerState} {s : Nat} {d : ChatData} {now : Nat}
    {userInfo : UserInfo}
    (hg : mapGet st.users s = some userInfo) (hv : connValidated st s = true)
    (hr : (checkMessageRate st.messageLimiter s now).1 = false) :
    handleChatMessage st s d now =
      (⟨st.conns, st.users, (checkMessageRate st.messageLimiter s now).2⟩,
       [.toOne s (.errorEv "Too many messages. Please slow down.")]) := by
  unfold handleChatMessage
  rw [hg, hv]
  simp [hr]

theorem handleChat_invalid {st : ServerState} {s : Nat} {d : ChatData} {now : Nat}
    {userInfo : UserInfo}
    (hg : mapGet st.users s = some userInfo) (hv : connValidated st s = true)
    (hr : (checkMessageRate st.messageLimiter s now).1 = true)
    (hm : validateMessage d.message = false) :
    handleChatMessage st s d now =
      (⟨st.conns, st.users, (checkMessageRate st.messageLimiter s now).2⟩,
       [.toOne s (.errorEv "Invalid message")]) := by
  unfold handleChatMessage
  rw [hg, hv]
  simp [hr, hm]

theorem handleChat_success {st : ServerState} {s : Nat} {d : ChatData} {now : Nat}
    {userInfo : UserInfo}
    (hg : mapGet st.users s = some userInfo) (hv : connValidated st s = true)
    (hr : (checkMessageRate st.messageLimiter s now).1 = true)
    (hm : validateMessage d.message = true) :
    handleChatMessage st s d now =
      (⟨st.conns,
        mapSet st.users s ⟨userInfo.username, userInfo.joinTime, userInfo.messageCount + 1⟩,
        (checkMessageRate st.messageLimiter s now).2⟩,
       [.toAll (.chatMsg userInfo.username (sanitizeMessage (jsStr d.message))
          (jsOrText d.messageType) d.file now)]) := by
  unfold handleChatMessage
  rw [hg, hv]
  simp [hr, hm]

theorem handleFile_notRegistered {st : ServerState} {s : Nat} {d : FileData} {now : Nat}
    (h : mapGet st.users s = none ∨ connValidated st s = false) :
    handleFileMessage st s d now = (st, []) := by
  unfold handleFileMessage
  rcases h with h | h
  · rw [h]
  · rw [h]
    cases mapGet st.users s <;> rfl

theorem handleFile_rate {st : ServerState} {s : Nat} {d : FileData} {now : Nat}
    {userInfo : UserInfo}
    (hg : mapGet st.users s = some userInfo) (hv : connValidated st s = true)
    (hr : (checkMessageRate st.messageLimiter s now).1 = false) :
    handleFileMessage st s d now =
      (⟨st.conns, st.users, (checkMessageRate st.messageLimiter s now).2⟩,
       [.toOne s (.errorEv "Too many messages. Please slow down.")]) := by
  unfold handleFileMessage
  rw [hg, hv]
  simp [hr]

theorem handleFile_noFile {st : ServerState} {s : Nat} {d : FileData} {now : Nat}
    {userInfo : UserInfo}
    (hg : mapGet st.users s = some userInfo) (hv : connValidated st s = true)
    (hr : (checkMessageRate st.messageLimiter s now).1 = true)
    (hf : d.file = none) :
    handleFileMessage st s d now =
      (⟨st.conns, st.users, (checkMessageRate st.messageLimiter s now).2⟩,
       [.toOne s (.errorEv "Invalid file data")]) := by
  unfold handleFileMessage
  rw [hg, hv]
  simp [hr, hf]

theorem handleFile_badFields {st : ServerState} {s : Nat} {d : FileData} {now : Nat}
    {userInfo : UserInfo} {f : FileRef}
    (hg : mapGet st.users s = some userInfo) (hv : connValidated st s = true)
    (hr : (checkMessageRate st.messageLimiter s now).1 = true)
    (hf : d.file = some f) (hbad : f.filename = "" ∨ f.url = "") :
    handleFileMessage st s d now =
      (⟨st.conns, st.users, (checkMessageRate st.messageLimiter s now).2⟩,
       [.toOne s (.errorEv "Invalid file data")]) := by
  unfold handleFileMessage
  rw [hg, hv]
  have hcond : (f.filename = "" || f.url = "") = true := by
    rcases hbad with h | h <;> simp [h]
  simp [hr, hf, hcond]

theorem handleFile_success {st : ServerState} {s : Nat} {d : FileData} {now : Nat}
    {userInfo : UserInfo} {f : FileRef}
    (hg : mapGet st.users s = some userInfo) (hv : connValidated st s = true)
    (hr : (checkMessageRate st.messageLimiter s now).1 = true)
    (hf : d.file = some f) (hn : ¬ (f.filename = "")) (hu : ¬ (f.url = "")) :
    handleFileMessage st s d now =
      (⟨st.conns,
        mapSet st.users s ⟨userInfo.username, userInfo.joinTime, userInfo.messageCount + 1⟩,
        (checkMessageRate st.messageLimiter s now).2⟩,
       [.toAll (.chatMsg userInfo.username
          (if jsTruthy d.message && validateMessage d.message then
            sanitizeMessage (jsStr d.message) else "")
          "file" (some f) now)]) := by
  unfold handleFileMessage
  rw [hg, hv]
  simp [hr, hf, hn, hu]

theorem handleTyping_registered {st : ServerState} {s : Nat} {userInfo : UserInfo}
    (hg : mapGet st.users s = some userInfo) (hv : connValidated st s = true) :
    handleTyping st s = (st, [.toAllExcept s (.userTyping userInfo.username)]) := by
  unfold handleTyping
  rw [hg, hv]

theorem handleTyping_notRegistered {st : ServerState} {s : Nat}
    (h : mapGet st.users s = none ∨ connValidated st s = false) :
    handleTyping st s = (st, []) := by
  unfold handleTyping
  rcases h with h | h
  · rw [h]
  · rw [h]
    cases mapGet st.users s <;> rfl

theorem handleStopTyping_validated {st : ServerState} {s : Nat}
    (hv : connValidated st s = true) :
    handleStopTyping st s = (st, [.toAllExcept s .userStopTyping]) := by
  unfold handleStopTyping
  rw [hv]
  rfl

theorem handleStopTyping_not {st : ServerState} {s : Nat}
    (hv : connValidated st s = false) :
    handleStopTyping st s = (st, []) := by
  unfold handleStopTyping
  rw [hv]
  rfl

/-! ## Invariant preservation -/

theorem keysNodup_setValidated {st : ServerState} (s : Nat)
    (hn : keysNodup st.conns) : keysNodup (setValidated st s).conns := by
  unfold setValidated
  cases mapGet st.conns s with
  | none => exact hn
  | some cs => exact keysNodup_mapSet hn

theorem validateUsername_vStr {u : JsValue} (h : validateUsername u = true) :
    validateUsername (.vStr (jsStr u)) = true := by
  cases u with
  | vStr r => exact h
  | vNull => simp [validateUsername] at h
  | vUndefined => simp [validateUsername] at h

theorem cleanNameOf_spec {u : JsValue} (h : validateUsername u = true) :
    (cleanNameOf u).length ≤ 20 ∧
    sanitizeMessage (cleanNameOf u) = cleanNameOf u := by
  obtain ⟨hfix, hlen⟩ := cleanUsername_spec (validateUsername_vStr h)
  refine ⟨?_, sanitizeMessage_idem _⟩
  show (sanitizeMessage (jsTrim (jsStr u))).length ≤ 20
  rw [hfix]
  exact hlen

theorem serverInv_handleJoin {st : ServerState} {s : Nat} {u : JsValue} {now : Nat}
    (hlive : isLive st s = true) (hI : ServerInv st) :
    ServerInv (handleJoin st s u now).1 := by
  by_cases hval : validateUsername u = true
  · by_cases hban : BANNED_USERNAMES.contains (strToLower (cleanNameOf u)) = true
    · rw [handleJoin_banned hval hban]
      exact serverInv_disarm s hI
    · have hban' : BANNED_USERNAMES.contains (strToLower (cleanNameOf u)) = false :=
        Bool.eq_false_iff.2 hban
      by_cases htaken : ((mapValues st.users).any fun w =>
          strToLower w.username = strToLower (cleanNameOf u)) = true
      · rw [handleJoin_taken hval hban' htaken]
        exact serverInv_disarm s hI
      · have htaken' : ((mapValues st.users).any fun w =>
            strToLower w.username = strToLower (cleanNameOf u)) = false :=
          Bool.eq_false_iff.2 htaken
        rw [handleJoin_success hval hban' htaken']
        have hdiff : ∀ w ∈ mapValues st.users,
            ¬ (strToLower w.username = strToLower (cleanNameOf u)) := by
          simpa using htaken'
        obtain ⟨cs0, hcs0⟩ : ∃ cs0, mapGet st.conns s = some cs0 := by
          cases hg : mapGet st.conns s with
          | none => rw [isLive, hg] at hlive; simp at hlive
          | some cs0 => exact ⟨cs0, rfl⟩
        have hclean := cleanNameOf_spec hval
        have hconnS : mapGet (setValidated (disarmTimer st s) s).conns s =
            some ⟨true, false⟩ := by
          rw [mapGet_setValidated, if_pos rfl, mapGet_disarmTimer, if_pos rfl, hcs0]
          rfl
        have hconnO : ∀ k, k ≠ s →
            mapGet (setValidated (disarmTimer st s) s).conns k = mapGet st.conns k := by
          intro k hk
          rw [mapGet_setValidated, if_neg hk, mapGet_disarmTimer, if_neg hk]
        refine ⟨keysNodup_setValidated s (keysNodup_disarm s hI.connsNodup),
          keysNodup_mapSet hI.usersNodup, ?_, ?_, ?_, ?_, ?_⟩
        · intro k w hw
          by_cases hk : k = s
          · rw [hk]
            exact ⟨⟨true, false⟩, hconnS, rfl⟩
          · rw [show mapGet ({ setValidated (disarmTimer st s) s with
                users := mapSet st.users s ⟨cleanNameOf u, now, 0⟩ } : ServerState).users k =
                mapGet st.users k from mapGet_mapSet_ne hk] at hw
            obtain ⟨cs, hcs, hcv⟩ := hI.usersLive k w hw
            exact ⟨cs, by rw [hconnO k hk]; exact hcs, hcv⟩
        · intro k1 u1 k2 u2 h1 h2 hk
          by_cases hk1 : k1 = s
          · rw [hk1] at h1 hk
            rw [show mapGet ({ setValidated (disarmTimer st s) s with
                users := mapSet st.users s ⟨cleanNameOf u, now, 0⟩ } : ServerState).users s =
                some ⟨cleanNameOf u, now, 0⟩ from mapGet_mapSet_self] at h1
            have hu1 : u1 = ⟨cleanNameOf u, now, 0⟩ := Option.some.inj h1.symm
            have hk2 : ¬ (k2 = s) := fun hh => hk hh.symm
            rw [show mapGet ({ setValidated (disarmTimer st s) s with
                users := mapSet st.users s ⟨cleanNameOf u, now, 0⟩ } : ServerState).users k2 =
                mapGet st.users k2 from mapGet_mapSet_ne hk2] at h2
            have hmem : u2 ∈ mapValues st.users := mem_values_iff.2 ⟨k2, mapGet_mem h2⟩
            rw [hu1]
            exact fun hh => hdiff u2 hmem (hh.symm)
          · rw [show mapGet ({ setValidated (disarmTimer st s) s with
                users := mapSet st.users s ⟨cleanNameOf u, now, 0⟩ } : ServerState).users k1 =
                mapGet st.users k1 from mapGet_mapSet_ne hk1] at h1
            by_cases hk2 : k2 = s
            · rw [hk2] at h2
              rw [show mapGet ({ setValidated (disarmTimer st s) s with
                  users := mapSet st.users s ⟨cleanNameOf u, now, 0⟩ } : ServerState).users s =
                  some ⟨cleanNameOf u, now, 0⟩ from mapGet_mapSet_self] at h2
              have hu2 : u2 = ⟨cleanNameOf u, now, 0⟩ := Option.some.inj h2.symm
              have hmem : u1 ∈ mapValues st.users := mem_values_iff.2 ⟨k1, mapGet_mem h1⟩
              rw [hu2]
              exact fun hh => hdiff u1 hmem hh
            · rw [show mapGet ({ setValidated (disarmTimer st s) s with
                  users := mapSet st.users s ⟨cleanNameOf u, now, 0⟩ } : ServerState).users k2 =
                  mapGet st.users k2 from mapGet_mapSet_ne hk2] at h2
              exact hI.uniqueNames k1 u1 k2 u2 h1 h2 hk
        · intro k w hw
          by_cases hk : k = s
          · rw [hk] at hw
            rw [show mapGet ({ setValidated (disarmTimer st s) s with
                users := mapSet st.users s ⟨cleanNameOf u, now, 0⟩ } : ServerState).users s =
                some ⟨cleanNameOf u, now, 0⟩ from mapGet_mapSet_self] at hw
            have hweq : w = ⟨cleanNameOf u, now, 0⟩ := Option.some.inj hw.symm
            rw [hweq]
            exact ⟨hclean.1, hclean.2, hban'⟩
          · rw [show mapGet ({ setValidated (disarmTimer st s) s with
                users := mapSet st.users s ⟨cleanNameOf u, now, 0⟩ } : ServerState).users k =
                mapGet st.users k from mapGet_mapSet_ne hk] at hw
            exact hI.namesWF k w hw
        · intro k cs hcs ha
          by_cases hk : k = s
          · rw [hk] at hcs
            rw [hconnS] at hcs
            have : cs = ⟨true, false⟩ := Option.some.inj hcs.symm
            rw [this] at ha
            simp at ha
          · rw [hconnO k hk] at hcs
            exact hI.armedUnvalidated k cs hcs ha
        · intro k cs hcs hv
          by_cases hk : k = s
          · rw [hk]
            rw [show mapGet ({ setValidated (disarmTimer st s) s with
                users := mapSet st.users s ⟨cleanNameOf u, now, 0⟩ } : ServerState).users s =
                some ⟨cleanNameOf u, now, 0⟩ from mapGet_mapSet_self]
            simp
          · rw [hconnO k hk] at hcs
            rw [show mapGet ({ setValidated (disarmTimer st s) s with
                users := mapSet st.users s ⟨cleanNameOf u, now, 0⟩ } : ServerState).users k =
                mapGet st.users k from mapGet_mapSet_ne hk]
            exact hI.validatedRegistered k cs hcs hv
  · have hval' : validateUsername u = false := Bool.eq_false_iff.2 hval
    rw [handleJoin_invalid hval']
    exact serverInv_disarm s hI

theorem serverInv_handleChat {st : ServerState} {s : Nat} {d : ChatData} {now : Nat}
    (hI : ServerInv st) : ServerInv (handleChatMessage st s d now).1 := by
  cases hg : mapGet st.users s with
  | none =>
      rw [handleChat_notRegistered (Or.inl hg)]
      exact hI
  | some userInfo =>
      cases hv : connValidated st s with
      | false =>
          rw [handleChat_notRegistered (Or.inr hv)]
          exact hI
      | true =>
          cases hr : (checkMessageRate st.messageLimiter s now).1 with
          | false =>
              rw [handleChat_rate hg hv hr]
              exact serverInv_limiter _ hI
          | true =>
              cases hm : validateMessage d.message with
              | false =>
                  rw [handleChat_invalid hg hv hr hm]
                  exact serverInv_limiter _ hI
              | true =>
                  rw [handleChat_success hg hv hr hm]
                  exact @serverInv_touchUser st s userInfo
                    ⟨userInfo.username, userInfo.joinTime, userInfo.messageCount + 1⟩
                    hg rfl hI (checkMessageRate st.messageLimiter s now).2

theorem serverInv_handleFile {st : ServerState} {s : Nat} {d : FileData} {now : Nat}
    (hI : ServerInv st) : ServerInv (handleFileMessage st s d now).1 := by
  cases hg : mapGet st.users s with
  | none =>
      rw [handleFile_notRegistered (Or.inl hg)]
      exact hI
  | some userInfo =>
      cases hv : connValidated st s with
      | false =>
          rw [handleFile_notRegistered (Or.inr hv)]
          exact hI
      | true =>
          cases hr : (checkMessageRate st.messageLimiter s now).1 with
          | false =>
              rw [handleFile_rate hg hv hr]
              exact serverInv_limiter _ hI
          | true =>
              cases hfile : d.file with
              | none =>
                  rw [handleFile_noFile hg hv hr hfile]
                  exact serverInv_limiter _ hI
              | some f =>
                  by_cases hfn : f.filename = ""
                  · rw [handleFile_badFields hg hv hr hfile (Or.inl hfn)]
                    exact serverInv_limiter _ hI
                  · by_cases hfu : f.url = ""
                    · rw [handleFile_badFields hg hv hr hfile (Or.inr hfu)]
                      exact serverInv_limiter _ hI
                    · rw [handleFile_success hg hv hr hfile hfn hfu]
                      exact @serverInv_touchUser st s userInfo
                        ⟨userInfo.username, userInfo.joinTime, userInfo.messageCount + 1⟩
                        hg rfl hI (checkMessageRate st.messageLimiter s now).2

theorem serverInv_step {st : ServerState} (hI : ServerInv st) (ev : Event) :
    ServerInv (stepState st ev) := by
  cases ev with
  | connect s =>
      simp only [stepState, step]
      by_cases hl : isLive st s = true
      · rw [if_pos hl]
        exact hI
      · rw [if_neg hl]
        have hnone : mapGet st.conns s = none := by
          cases hg : mapGet st.conns s with
          | none => rfl
          | some cs => exact absurd (by rw [isLive, hg]; rfl) hl
        refine ⟨keysNodup_mapSet hI.connsNodup, hI.usersNodup, ?_,
          hI.uniqueNames, hI.namesWF, ?_, ?_⟩
        · intro k w hw
          obtain ⟨cs, hcs, hcv⟩ := hI.usersLive k w hw
          by_cases hk : k = s
          · rw [hk, hnone] at hcs
            exact absurd hcs (by simp)
          · exact ⟨cs, by rw [mapGet_mapSet_ne hk]; exact hcs, hcv⟩
        · intro k cs hcs ha
          by_cases hk : k = s
          · rw [hk, mapGet_mapSet_self] at hcs
            exact (Option.some.inj hcs.symm) ▸ rfl
          · rw [mapGet_mapSet_ne hk] at hcs
            exact hI.armedUnvalidated k cs hcs ha
        · intro k cs hcs hv
          by_cases hk : k = s
          · rw [hk, mapGet_mapSet_self] at hcs
            have : cs = ⟨false, true⟩ := Option.some.inj hcs.symm
            rw [this] at hv
            simp at hv
          · rw [mapGet_mapSet_ne hk] at hcs
            exact hI.validatedRegistered k cs hcs hv
  | join s u now =>
      simp only [stepState, step]
      by_cases hl : isLive st s = true
      · rw [if_pos hl]
        exact serverInv_handleJoin hl hI
      · rw [if_neg hl]
        exact hI
  | chatMessage s d now =>
      simp only [stepState, step]
      by_cases hl : isLive st s = true
      · rw [if_pos hl]
        exact serverInv_handleChat hI
      · rw [if_neg hl]
        exact hI
  | fileMessage s d now =>
      simp only [stepState, step]
      by_cases hl : isLive st s = true
      · rw [if_pos hl]
        cases hg : mapGet st.users s with
        | none => rw [handleFile_notRegistered (Or.inl hg)]; exact hI
        | some userInfo => exact serverInv_handleFile hI
      · rw [if_neg hl]
        exact hI
  | typing s =>
      simp only [stepState, step]
      by_cases hl : isLive st s = true
      · rw [if_pos hl]
        cases hg : mapGet st.users s with
        | none => rw [handleTyping_notRegistered (Or.inl hg)]; exact hI
        | some userInfo =>
            cases hv : connValidated st s with
            | false => rw [handleTyping_notRegistered (Or.inr hv)]; exact hI
            | true => rw [handleTyping_registered hg hv]; exact hI
      · rw [if_neg hl]
        exact hI
  | stopTyping s =>
      simp only [stepState, step]
      by_cases hl : isLive st s = true
      · rw [if_pos hl]
        cases hv : connValidated st s with
        | false => rw [handleStopTyping_not hv]; exact hI
        | true => rw [handleStopTyping_validated hv]; exact hI
      · rw [if_neg hl]
        exact hI
  | disconnect s now =>
      simp only [stepState, step]
      by_cases hl : isLive st s = true
      · rw [if_pos hl]
        exact serverInv_handleDisconnect s now hI
      · rw [if_neg hl]
        exact hI
  | timerFire s now =>
      simp only [stepState, step]
      by_cases ha : timerArmedFor st s = true
      · rw [if_pos ha]
        by_cases hv : connValidated (disarmTimer st s) s = true
        · rw [if_pos hv]
          exact serverInv_disarm s hI
        · rw [if_neg hv]
          exact serverInv_handleDisconnect s now (serverInv_disarm s hI)
      · rw [if_neg ha]
        exact hI

/-- Every reachable server state satisfies the invariant. -/
theorem reachable_serverInv {st : ServerState} (h : Reachable st) : ServerInv st := by
  induction h with
  | init => exact serverInv_init
  | next h ev ih => exact serverInv_step ih ev

/-! ## Rate limiter lemmas -/

theorem checkMessageRate_fresh {lim : List (Nat × RateEntry)} {s t : Nat}
    (hg : mapGet lim s = none) :
    checkMessageRate lim s t = (true, mapSet lim s ⟨1, t + MESSAGE_WINDOW⟩) := by
  unfold checkMessageRate
  rw [hg]
  simp [MESSAGE_LIMIT]

theorem checkMessageRate_reset {lim : List (Nat × RateEntry)} {s t : Nat}
    {e : RateEntry} (hg : mapGet lim s = some e) (ht : t > e.resetTime) :
    checkMessageRate lim s t = (true, mapSet lim s ⟨1, t + MESSAGE_WINDOW⟩) := by
  unfold checkMessageRate
  rw [hg]
  simp [ht, MESSAGE_LIMIT]

theorem checkMessageRate_inWindow {lim : List (Nat × RateEntry)} {s t : Nat}
    {e : RateEntry} (hg : mapGet lim s = some e) (ht : ¬ (t > e.resetTime)) :
    checkMessageRate lim s t =
      (decide (e.count + 1 ≤ MESSAGE_LIMIT), mapSet lim s ⟨e.count + 1, e.resetTime⟩) := by
  unfold checkMessageRate
  rw [hg]
  simp [ht]

theorem runRate_inWindow {s : Nat} :
    ∀ (ts : List Nat) (lim : List (Nat × RateEntry)) (c r : Nat),
      mapGet lim s = some ⟨c, r⟩ → (∀ t ∈ ts, t ≤ r) →
      (runRate lim s ts).1 =
        (List.range ts.length).map (fun i => decide (c + i + 1 ≤ MESSAGE_LIMIT)) := by
  intro ts
  induction ts with
  | nil => intro lim c r hg hb; rfl
  | cons t ts ih =>
      intro lim c r hg hb
      have ht : ¬ (t > r) := not_lt.2 (hb t (List.mem_cons_self _ _))
      have hc : checkMessageRate lim s t =
          (decide (c + 1 ≤ MESSAGE_LIMIT), mapSet lim s ⟨c + 1, r⟩) :=
        checkMessageRate_inWindow hg ht
      have htail : (runRate (mapSet lim s ⟨c + 1, r⟩) s ts).1 =
          (List.range ts.length).map (fun i => decide ((c + 1) + i + 1 ≤ MESSAGE_LIMIT)) :=
        ih (mapSet lim s ⟨c + 1, r⟩) (c + 1) r mapGet_mapSet_self
          (fun t' ht' => hb t' (List.mem_cons_of_mem _ ht'))
      show ((checkMessageRate lim s t).1 ::
        (runRate (checkMessageRate lim s t).2 s ts).1, _).1 = _
      rw [hc]
      simp only [htail, List.length_cons]
      rw [List.range_succ_eq_map, List.map_cons, List.map_map]
      refine List.cons_eq_cons.2 ⟨decide_eq_decide.2 (by omega), ?_⟩
      apply List.map_congr_left
      intro i _
      show decide (c + 1 + i + 1 ≤ MESSAGE_LIMIT) = decide (c + (i + 1) + 1 ≤ MESSAGE_LIMIT)
      exact decide_eq_decide.2 (by omega)

theorem runRate_window_burst {lim : List (Nat × RateEntry)} {s t0 : Nat}
    (ts : List Nat) (hg : mapGet lim s = none)
    (hb : ∀ t ∈ ts, t ≤ t0 + MESSAGE_WINDOW) :
    (runRate lim s (t0 :: ts)).1 =
      (List.range (ts.length + 1)).map (fun i => decide (i + 1 ≤ MESSAGE_LIMIT)) := by
  have hc := @checkMessageRate_fresh lim s t0 hg
  have htail : (runRate (mapSet lim s ⟨1, t0 + MESSAGE_WINDOW⟩) s ts).1 =
      (List.range ts.length).map (fun i => decide (1 + i + 1 ≤ MESSAGE_LIMIT)) :=
    runRate_inWindow ts _ 1 (t0 + MESSAGE_WINDOW) mapGet_mapSet_self hb
  show ((checkMessageRate lim s t0).1 ::
    (runRate (checkMessageRate lim s t0).2 s ts).1, _).1 = _
  rw [hc]
  simp only [htail]
  rw [List.range_succ_eq_map, List.map_cons, List.map_map]
  refine List.cons_eq_cons.2 ⟨by decide, ?_⟩
  apply List.map_congr_left
  intro i _
  show decide (1 + i + 1 ≤ MESSAGE_LIMIT) = decide (i + 1 + 1 ≤ MESSAGE_LIMIT)
  exact decide_eq_decide.2 (by omega)

/-- C2.  Rate limiter fixed-window semantics (`checkMessageRate`,
server.js:102-115): the window constant is 60 seconds (60 * 1000 ms) with
cap 30; a call past `resetTime` first resets the entry to count 0 and
`resetTime = now + MESSAGE_WINDOW`, then increments and admits iff the new
count is at most the cap (after a reset the count is 1, so the call is
admitted and the stored entry is `⟨1, now + MESSAGE_WINDOW⟩`); a call
within the window increments the stored count and admits iff it stays at
most 30; consequently a first call followed by any calls within its window
yields verdicts `[1 ≤ 30, 2 ≤ 30, …]` — the first 30 calls true, the 31st
false — and once `now` passes `resetTime` the next call is admitted again. -/
theorem C2_rate_limiter_fixed_window :
    MESSAGE_WINDOW = 60 * 1000 ∧ MESSAGE_LIMIT = 30 ∧
    (∀ (lim : List (Nat × RateEntry)) (s t : Nat) (e : RateEntry),
      mapGet lim s = some e → t > e.resetTime →
      checkMessageRate lim s t = (true, mapSet lim s ⟨1, t + MESSAGE_WINDOW⟩)) ∧
    (∀ (lim : List (Nat × RateEntry)) (s t : Nat) (e : RateEntry),
      mapGet lim s = some e → ¬ (t > e.resetTime) →
      checkMessageRate lim s t =
        (decide (e.count + 1 ≤ MESSAGE_LIMIT), mapSet lim s ⟨e.count + 1, e.resetTime⟩)) ∧
    (∀ (lim : List (Nat × RateEntry)) (s t0 : Nat) (ts : List Nat),
      mapGet lim s = none → (∀ t ∈ ts, t ≤ t0 + MESSAGE_WINDOW) →
      (runRate lim s (t0 :: ts)).1 =
        (List.range (ts.length + 1)).map (fun i => decide (i + 1 ≤ MESSAGE_LIMIT))) :=
  ⟨rfl, rfl,
   fun _ _ _ _ hg ht => checkMessageRate_reset hg ht,
   fun _ _ _ _ hg ht => checkMessageRate_inWindow hg ht,
   fun _ _ _ ts hg hb => runRate_window_burst ts hg hb⟩

/-- Witness for C2: a fresh socket making 31 calls in one window (first at
time 0, thirty more at time 1) is admitted exactly 30 times, with the 31st
call rejected; a socket whose window has expired (entry `⟨30, 5⟩`, call at
time 6) is admitted again with a reset entry. -/
theorem C2_rate_limiter_fixed_window_witness :
    (runRate [] 0 (0 :: List.replicate 30 1)).1 =
      (List.range 31).map (fun i => decide (i + 1 ≤ MESSAGE_LIMIT)) ∧
    checkMessageRate [(0, RateEntry.mk 30 5)] 0 6 =
      (true, [(0, RateEntry.mk 1 (6 + MESSAGE_WINDOW))]) := by
  constructor
  · have h := C2_rate_limiter_fixed_window.2.2.2.2 [] 0 0 (List.replicate 30 1)
      rfl (by decide)
    simpa using h
  · have h := C2_rate_limiter_fixed_window.2.2.1 [(0, RateEntry.mk 30 5)] 0 6
      (RateEntry.mk 30 5) rfl (by decide)
    simpa [mapSet] using h

/-! ## Helpers for the claim theorems -/

theorem reachable_foldl (evs : List Event) :
    ∀ st, Reachable st → Reachable (evs.foldl stepState st) := by
  induction evs with
  | nil => intro st h; exact h
  | cons ev evs ih => intro st h; exact ih _ (Reachable.next h ev)

theorem reachable_runEvents (evs : List Event) : Reachable (runEvents evs) :=
  reachable_foldl evs initState Reachable.init

theorem mapDelete_mapSet_self {α : Type} {m : List (Nat × α)} {k : Nat} {v : α} :
    mapDelete (mapSet m k v) k = mapDelete m k := by
  induction m with
  | nil => simp [mapSet, mapDelete]
  | cons hd tl ih =>
      obtain ⟨k', v'⟩ := hd
      by_cases hk : k' = k
      · have h1 : mapSet ((k', v') :: tl) k v = (k, v) :: tl := by simp [mapSet, hk]
        rw [h1]
        simp [mapDelete, hk]
      · have h1 : mapSet ((k', v') :: tl) k v = (k', v') :: mapSet tl k v := by
          simp [mapSet, hk]
        rw [h1]
        have h2 := ih
        simp only [mapDelete] at h2 ⊢
        rw [List.filter_cons, List.filter_cons, h2]

theorem mapGet_eq_of_mem {α : Type} {m : List (Nat × α)} {k : Nat} {v w : α}
    (hn : keysNodup m) (hget : mapGet m k = some v) (hmem : (k, w) ∈ m) : w = v := by
  induction m with
  | nil => simp at hmem
  | cons hd tl ih =>
      obtain ⟨k', v'⟩ := hd
      simp only [keysNodup, mapKeys, List.map_cons, List.nodup_cons] at hn
      by_cases hk : k' = k
      · rw [show mapGet ((k', v') :: tl) k = some v' from by simp [mapGet, hk]] at hget
        have hv : v' = v := Option.some.inj hget
        rcases List.mem_cons.1 hmem with h | h
        · have hw : w = v' := by
            have := congrArg Prod.snd h
            simpa using this
          rw [hw]
          exact hv
        · exfalso
          apply hn.1
          rw [hk]
          exact List.mem_map.2 ⟨(k, w), h, rfl⟩
      · rw [show mapGet ((k', v') :: tl) k = mapGet tl k from by simp [mapGet, hk]] at hget
        rcases List.mem_cons.1 hmem with h | h
        · exact absurd (congrArg Prod.fst h) (by simpa using fun hh => hk hh.symm)
        · exact ih hn.2 hget h

theorem handleChat_conns {st : ServerState} {s : Nat} {d : ChatData} {now : Nat} :
    (handleChatMessage st s d now).1.conns = st.conns := by
  cases hg : mapGet st.users s with
  | none => rw [handleChat_notRegistered (Or.inl hg)]
  | some userInfo =>
      cases hv : connValidated st s with
      | false => rw [handleChat_notRegistered (Or.inr hv)]
      | true =>
          cases hr : (checkMessageRate st.messageLimiter s now).1 with
          | false => rw [handleChat_rate hg hv hr]
          | true =>
              cases hm : validateMessage d.message with
              | false => rw [handleChat_invalid hg hv hr hm]
              | true => rw [handleChat_success hg hv hr hm]

theorem handleFile_conns {st : ServerState} {s : Nat} {d : FileData} {now : Nat} :
    (handleFileMessage st s d now).1.conns = st.conns := by
  cases hg : mapGet st.users s with
  | none => rw [handleFile_notRegistered (Or.inl hg)]
  | some userInfo =>
      cases hv : connValidated st s with
      | false => rw [handleFile_notRegistered (Or.inr hv)]
      | true =>
          cases hr : (checkMessageRate st.messageLimiter s now).1 with
          | false => rw [handleFile_rate hg hv hr]
          | true =>
              cases hfile : d.file with
              | none => rw [handleFile_noFile hg hv hr hfile]
              | some f =>
                  by_cases hfn : f.filename = ""
                  · rw [handleFile_badFields hg hv hr hfile (Or.inl hfn)]
                  · by_cases hfu : f.url = ""
                    · rw [handleFile_badFields hg hv hr hfile (Or.inr hfu)]
                    · rw [handleFile_success hg hv hr hfile hfn hfu]

theorem handleTyping_state {st : ServerState} {s : Nat} :
    (handleTyping st s).1 = st := by
  unfold handleTyping
  cases h1 : mapGet st.users s <;> cases h2 : connValidated st s <;> simp

theorem handleStopTyping_state {st : ServerState} {s : Nat} :
    (handleStopTyping st s).1 = st := by
  unfold handleStopTyping
  cases h2 : connValidated st s <;> simp

theorem handleDisconnect_conns {st : ServerState} {s now : Nat} :
    (handleDisconnect st s now).1.conns = mapDelete st.conns s := by
  cases hg : mapGet st.users s with
  | none => rw [handleDisconnect_none hg]
  | some userInfo => rw [handleDisconnect_some hg]

theorem timerArmedFor_congr {st st2 : ServerState} {k : Nat}
    (h : mapGet st2.conns k = mapGet st.conns k) :
    timerArmedFor st2 k = timerArmedFor st k := by
  unfold timerArmedFor
  rw [h]

theorem handleJoin_armed_other {st : ServerState} {s : Nat} {u : JsValue}
    {now k : Nat} (hk : k ≠ s) :
    timerArmedFor (handleJoin st s u now).1 k = timerArmedFor st k := by
  have hdis : mapGet (disarmTimer st s).conns k = mapGet st.conns k := by
    rw [mapGet_disarmTimer, if_neg hk]
  by_cases hval : validateUsername u = true
  · by_cases hban : BANNED_USERNAMES.contains (strToLower (cleanNameOf u)) = true
    · rw [handleJoin_banned hval hban]
      exact timerArmedFor_congr hdis
    · have hban' := Bool.eq_false_iff.2 hban
      by_cases htaken : ((mapValues st.users).any fun w =>
          strToLower w.username = strToLower (cleanNameOf u)) = true
      · rw [handleJoin_taken hval hban' htaken]
        exact timerArmedFor_congr hdis
      · rw [handleJoin_success hval hban' (Bool.eq_false_iff.2 htaken)]
        refine timerArmedFor_congr ?_
        show mapGet (setValidated (disarmTimer st s) s).conns k = mapGet st.conns k
        rw [mapGet_setValidated, if_neg hk, mapGet_disarmTimer, if_neg hk]
  · rw [handleJoin_invalid (Bool.eq_false_iff.2 hval)]
    exact timerArmedFor_congr hdis

/-! ## Claim theorems -/

/-- C5.  Sanitization: for every input string x,
`sanitize(sanitize(x)) = sanitize(x)`, and for every input containing a
`<script>` tag the sanitized output contains no tag delimiters (`<` or `>`). -/
theorem C5_sanitize_idempotent_script_safe :
    (∀ x : String, sanitizeMessage (sanitizeMessage x) = sanitizeMessage x) ∧
    (∀ x : String, List.IsInfix "<script>".data x.data →
      noDelims (sanitizeMessage x).data) :=
  ⟨sanitizeMessage_idem, fun x _ => sanitizeMessage_noDelims x⟩

/-- Witness for C5 at the input `"a<script>alert(1)</script>b"`. -/
theorem C5_sanitize_idempotent_script_safe_witness :
    List.IsInfix "<script>".data "a<script>alert(1)</script>b".data ∧
    noDelims (sanitizeMessage "a<script>alert(1)</script>b").data ∧
    sanitizeMessage (sanitizeMessage "a<script>alert(1)</script>b") =
      sanitizeMessage "a<script>alert(1)</script>b" :=
  ⟨by decide,
   C5_sanitize_idempotent_script_safe.2 "a<script>alert(1)</script>b" (by decide),
   C5_sanitize_idempotent_script_safe.1 "a<script>alert(1)</script>b"⟩

/-- C6 counterexample: `validateMessage` (the spec's `validateText`) returns
`false` on the empty string, which is a non-null string of length at most
500 — so "true iff non-null string of length ≤ 500" fails at `""`
(`!message` in server.js:126 is truthy for the empty string). -/
theorem C6_counterexample :
    validateMessage (JsValue.vStr "") = false ∧ ("" : String).length ≤ 500 := by
  decide

/-- C6 (amended).  `validateMessage` returns true iff the value is a
non-null, non-empty string of length at most 500. -/
theorem C6_text_validation_amended (v : JsValue) :
    validateMessage v = true ↔
      ∃ s, v = JsValue.vStr s ∧ ¬ (s = "") ∧ s.length ≤ 500 := by
  cases v with
  | vNull => simp [validateMessage]
  | vUndefined => simp [validateMessage]
  | vStr s =>
      by_cases hs : s = ""
      · simp [validateMessage, hs]
      · simp [validateMessage, hs]

/-- Witness for C6 (amended) at `"hi"`. -/
theorem C6_text_validation_amended_witness :
    validateMessage (JsValue.vStr "hi") = true ↔
      ∃ s, JsValue.vStr "hi" = JsValue.vStr s ∧ ¬ (s = "") ∧ s.length ≤ 500 :=
  C6_text_validation_amended (JsValue.vStr "hi")

/-- C3 counterexample: the raw name `" a "` passes `validateUsername`
(length 3, all characters in the allowed class), but the stored
displayName is the sanitized *trimmed* name `"a"` of length 1 — below the
claimed lower bound of 2. -/
theorem C3_counterexample :
    validateUsername (JsValue.vStr " a ") = true ∧
    mapGet (runEvents [.connect 0, .join 0 (.vStr " a ") 5]).users 0 =
      some ⟨"a", 5, 0⟩ ∧
    ¬ (2 ≤ (UserInfo.mk "a" 5 0).username.length) := by
  decide

/-- C3 (amended).  In every reachable state, every stored displayName is a
sanitized string (a fixed point of `sanitizeMessage`) of length at most 20;
the lower bound of 2 does not hold because length validation runs before
trimming (server.js:247 validates, :252 trims). -/
theorem C3_stored_names_sanitized {st : ServerState} (h : Reachable st) :
    ∀ k u, mapGet st.users k = some u →
      sanitizeMessage u.username = u.username ∧ u.username.length ≤ 20 := by
  intro k u hu
  have hwf := (reachable_serverInv h).namesWF k u hu
  exact ⟨hwf.2.1, hwf.1⟩

/-- Witness for C3 (amended) at the state reached by one join with `"ab"`. -/
theorem C3_stored_names_sanitized_witness :
    sanitizeMessage "ab" = "ab" ∧ ("ab" : String).length ≤ 20 := by
  have h := C3_stored_names_sanitized
    (reachable_runEvents [.connect 0, .join 0 (.vStr "ab") 0]) 0
    ⟨"ab", 0, 0⟩ (by decide)
  exact h

/-- C1 counterexample: with `"ab"` active, a join with raw name `"<b>ab"`
has sanitized name `"ab"`, equal (case-insensitively) to the active
identity's name, yet register fails with `InvalidFormat` (`'Invalid
username'`) rather than `Taken` (`'Username already taken'`), because the
format check runs on the raw name before sanitization. -/
theorem C1_counterexample :
    cleanNameOf (JsValue.vStr "<b>ab") = "ab" ∧
    mapGet (runEvents [.connect 0, .join 0 (.vStr "ab") 0, .connect 1]).users 0 =
      some ⟨"ab", 0, 0⟩ ∧
    strToLower (UserInfo.mk "ab" 0 0).username =
      strToLower (cleanNameOf (JsValue.vStr "<b>ab")) ∧
    step (runEvents [.connect 0, .join 0 (.vStr "ab") 0, .connect 1])
        (.join 1 (.vStr "<b>ab") 7) =
      (⟨[(0, ⟨true, false⟩), (1, ⟨false, false⟩)], [(0, ⟨"ab", 0, 0⟩)], []⟩,
       [.toOne 1 (.errorEv "Invalid username")]) := by
  decide

/-- C1 (amended).  At every reachable state the registry holds at most one
identity per connection id and no two identities share a case-insensitive
name; and every join attempt *that passes format validation* whose
sanitized name equals an active identity's name case-insensitively fails
with `Taken` — the rejection `'Username already taken'` is emitted to the
originator only — leaving the registry unchanged. -/
theorem C1_registry_uniqueness {st : ServerState} (h : Reachable st) :
    (keysNodup st.users ∧
     ∀ k1 u1 k2 u2, mapGet st.users k1 = some u1 → mapGet st.users k2 = some u2 →
       k1 ≠ k2 → strToLower u1.username ≠ strToLower u2.username) ∧
    (∀ s u now k userInfo, isLive st s = true → validateUsername u = true →
      mapGet st.users k = some userInfo →
      strToLower userInfo.username = strToLower (cleanNameOf u) →
      step st (.join s u now) =
        (disarmTimer st s, [.toOne s (.errorEv "Username already taken")]) ∧
      (disarmTimer st s).users = st.users) := by
  have hI := reachable_serverInv h
  refine ⟨⟨hI.usersNodup, hI.uniqueNames⟩, ?_⟩
  intro s u now k userInfo hlive hval hk hmatch
  have hban : BANNED_USERNAMES.contains (strToLower (cleanNameOf u)) = false := by
    rw [← hmatch]
    exact (hI.namesWF k userInfo hk).2.2
  have htaken : ((mapValues st.users).any fun w =>
      strToLower w.username = strToLower (cleanNameOf u)) = true :=
    List.any_eq_true.2 ⟨userInfo, mem_values_iff.2 ⟨k, mapGet_mem hk⟩, by simp [hmatch]⟩
  constructor
  · show step st (.join s u now) = _
    simp only [step]
    rw [if_pos hlive]
    exact handleJoin_taken hval hban htaken
  · exact disarmTimer_users st s

/-- Witness for C1 (amended): with `"ab"` active, the join `"AB"` from a
second connection is rejected with `'Username already taken'`. -/
theorem C1_registry_uniqueness_witness :
    keysNodup (runEvents [.connect 0, .join 0 (.vStr "ab") 0, .connect 1]).users ∧
    step (runEvents [.connect 0, .join 0 (.vStr "ab") 0, .connect 1])
        (.join 1 (.vStr "AB") 9) =
      (disarmTimer (runEvents [.connect 0, .join 0 (.vStr "ab") 0, .connect 1]) 1,
       [.toOne 1 (.errorEv "Username already taken")]) := by
  have h := C1_registry_uniqueness
    (reachable_runEvents [.connect 0, .join 0 (.vStr "ab") 0, .connect 1])
  exact ⟨h.1.1,
    (h.2 1 (.vStr "AB") 9 0 ⟨"ab", 0, 0⟩ (by decide) (by decide) (by decide)
      (by decide)).1⟩

/-- C4 counterexample: on the state with a freshly connected socket (timer
armed), a *failed* join attempt (`"x"` is too short) clears the validation
timer: afterwards the timer is disarmed although no join succeeded and no
disconnect occurred, the connection is still unvalidated and still open —
refuting "the timer is cancelled exactly once, on join success or on
disconnect" (`clearTimeout` runs first in the join handler,
server.js:245, before any validation). -/
theorem C4_counterexample :
    timerArmedFor (runEvents [.connect 0]) 0 = true ∧
    stepEmits (runEvents [.connect 0]) (.join 0 (.vStr "x") 1) =
      [.toOne 0 (.errorEv "Invalid username")] ∧
    timerArmedFor (stepState (runEvents [.connect 0]) (.join 0 (.vStr "x") 1)) 0 = false ∧
    connValidated (stepState (runEvents [.connect 0]) (.join 0 (.vStr "x") 1)) 0 = false ∧
    isLive (stepState (runEvents [.connect 0]) (.join 0 (.vStr "x") 1)) 0 = true := by
  decide

theorem disarmTimer_eq_of_get {st : ServerState} {s : Nat} {cs : ConnState}
    (hg : mapGet st.conns s = some cs) :
    disarmTimer st s = { st with conns := mapSet st.conns s ⟨cs.validated, false⟩ } := by
  unfold disarmTimer
  rw [hg]

/-- C4 (amended).  (i) In every reachable state, a connection whose deadline
timer is still armed is unvalidated and absent from the registry; (ii) if
the timer fires while armed, the connection is forcibly closed (removed),
the registry is untouched and nothing is broadcast — so a connection that
never joins never appears in any roster; (iii) the timer is cancelled by
the connection's *first join attempt, whether or not it succeeds*, by its
disconnect, or by firing — not only by join success or disconnect. -/
theorem C4_validation_deadline :
    (∀ st : ServerState, Reachable st → ∀ k cs, mapGet st.conns k = some cs →
      cs.timerArmed = true → cs.validated = false ∧ mapGet st.users k = none) ∧
    (∀ st : ServerState, Reachable st → ∀ s now, timerArmedFor st s = true →
      step st (.timerFire s now) =
        (⟨mapDelete st.conns s, st.users, st.messageLimiter⟩, [])) ∧
    (∀ (st : ServerState) (s : Nat) (ev : Event), timerArmedFor st s = true →
      timerArmedFor (stepState st ev) s = false →
      (∃ u n, ev = Event.join s u n) ∨ (∃ n, ev = Event.disconnect s n) ∨
      (∃ n, ev = Event.timerFire s n)) := by
  have harmRegistry : ∀ st : ServerState, Reachable st → ∀ k cs,
      mapGet st.conns k = some cs → cs.timerArmed = true →
      cs.validated = false ∧ mapGet st.users k = none := by
    intro st h k cs hcs harmed
    have hI := reachable_serverInv h
    have hval := hI.armedUnvalidated k cs hcs harmed
    refine ⟨hval, ?_⟩
    cases hu : mapGet st.users k with
    | none => rfl
    | some u =>
        obtain ⟨cs2, hcs2, hv2⟩ := hI.usersLive k u hu
        have : cs2 = cs := Option.some.inj (hcs2.symm.trans hcs)
        rw [this] at hv2
        rw [hval] at hv2
        exact absurd hv2 (by simp)
  refine ⟨harmRegistry, ?_, ?_⟩
  · intro st h s now harm
    have hex : ∃ cs, mapGet st.conns s = some cs ∧ cs.timerArmed = true := by
      unfold timerArmedFor at harm
      cases hg : mapGet st.conns s with
      | none => rw [hg] at harm; simp at harm
      | some cs =>
          rw [hg] at harm
          exact ⟨cs, rfl, by simpa using harm⟩
    obtain ⟨cs, hcs, harmed⟩ := hex
    have harm2 : timerArmedFor st s = true := by
      unfold timerArmedFor
      rw [hcs]
      exact harmed
    obtain ⟨hval, husers⟩ := harmRegistry st h s cs hcs harmed
    have hdis := disarmTimer_eq_of_get hcs
    have hv1 : connValidated (disarmTimer st s) s = false := by
      unfold connValidated
      rw [hdis]
      show (match mapGet (mapSet st.conns s ⟨cs.validated, false⟩) s with
        | some cs => cs.validated | none => false) = false
      rw [mapGet_mapSet_self]
      exact hval
    simp only [step]
    rw [if_pos harm, if_neg (by rw [hv1]; simp)]
    have husers1 : mapGet (disarmTimer st s).users s = none := by
      rw [disarmTimer_users]
      exact husers
    rw [handleDisconnect_none husers1, hdis]
    show ((⟨mapDelete (mapSet st.conns s ⟨cs.validated, false⟩) s,
      st.users, st.messageLimiter⟩ : ServerState), ([] : List Emit)) = _
    rw [mapDelete_mapSet_self]
  · intro st s ev harm hnot
    have contra : ∀ hpres : timerArmedFor (stepState st ev) s = timerArmedFor st s,
        False := by
      intro hpres
      rw [hpres, harm] at hnot
      exact absurd hnot (by simp)
    cases ev with
    | connect s2 =>
        exfalso
        apply contra
        simp only [stepState, step]
        by_cases hl : isLive st s2 = true
        · rw [if_pos hl]
        · rw [if_neg hl]
          by_cases hs2 : s2 = s
          · exfalso
            apply hl
            rw [hs2]
            unfold timerArmedFor at harm
            unfold isLive
            cases hg : mapGet st.conns s with
            | none => rw [hg] at harm; simp at harm
            | some cs => simp
          · exact timerArmedFor_congr (by
              show mapGet (mapSet st.conns s2 ⟨false, true⟩) s = mapGet st.conns s
              exact mapGet_mapSet_ne (fun hh => hs2 hh.symm))
    | join s2 u n =>
        by_cases hs2 : s2 = s
        · exact Or.inl ⟨u, n, by rw [hs2]⟩
        · exfalso
          apply contra
          simp only [stepState, step]
          by_cases hl : isLive st s2 = true
          · rw [if_pos hl]
            exact handleJoin_armed_other (fun hh => hs2 hh.symm)
          · rw [if_neg hl]
    | chatMessage s2 d n =>
        exfalso
        apply contra
        simp only [stepState, step]
        by_cases hl : isLive st s2 = true
        · rw [if_pos hl]
          exact timerArmedFor_congr (by rw [handleChat_conns])
        · rw [if_neg hl]
    | fileMessage s2 d n =>
        exfalso
        apply contra
        simp only [stepState, step]
        by_cases hl : isLive st s2 = true
        · rw [if_pos hl]
          exact timerArmedFor_congr (by rw [handleFile_conns])
        · rw [if_neg hl]
    | typing s2 =>
        exfalso
        apply contra
        simp only [stepState, step]
        by_cases hl : isLive st s2 = true
        · rw [if_pos hl, handleTyping_state]
        · rw [if_neg hl]
    | stopTyping s2 =>
        exfalso
        apply contra
        simp only [stepState, step]
        by_cases hl : isLive st s2 = true
        · rw [if_pos hl, handleStopTyping_state]
        · rw [if_neg hl]
    | disconnect s2 n =>
        by_cases hs2 : s2 = s
        · exact Or.inr (Or.inl ⟨n, by rw [hs2]⟩)
        · exfalso
          apply contra
          simp only [stepState, step]
          by_cases hl : isLive st s2 = true
          · rw [if_pos hl]
            refine timerArmedFor_congr ?_
            rw [handleDisconnect_conns, mapGet_mapDelete,
              if_neg (fun hh => hs2 hh.symm)]
          · rw [if_neg hl]
    | timerFire s2 n =>
        by_cases hs2 : s2 = s
        · exact Or.inr (Or.inr ⟨n, by rw [hs2]⟩)
        · exfalso
          apply contra
          simp only [stepState, step]
          by_cases ha2 : timerArmedFor st s2 = true
          · rw [if_pos ha2]
            have hdis2 : mapGet (disarmTimer st s2).conns s = mapGet st.conns s := by
              rw [mapGet_disarmTimer, if_neg (fun hh => hs2 hh.symm)]
            by_cases hv2 : connValidated (disarmTimer st s2) s2 = true
            · rw [if_pos hv2]
              exact timerArmedFor_congr hdis2
            · rw [if_neg hv2]
              refine timerArmedFor_congr ?_
              rw [handleDisconnect_conns, mapGet_mapDelete,
                if_neg (fun hh => hs2 hh.symm)]
              exact hdis2
          · rw [if_neg ha2]

/-- Witness for C4 (amended) on the one-connection state with the timer
armed: the registry is empty for it, the timer firing closes the socket
with no broadcast, and the cancellation observed after a failed join is
attributed to that join event. -/
theorem C4_validation_deadline_witness :
    ((⟨false, true⟩ : ConnState).validated = false ∧
      mapGet (runEvents [.connect 0]).users 0 = none) ∧
    step (runEvents [.connect 0]) (.timerFire 0 31) =
      (⟨mapDelete (runEvents [.connect 0]).conns 0,
        (runEvents [.connect 0]).users, (runEvents [.connect 0]).messageLimiter⟩, []) ∧
    ((∃ u n, Event.join 0 (JsValue.vStr "x") 1 = Event.join 0 u n) ∨
     (∃ n, Event.join 0 (JsValue.vStr "x") 1 = Event.disconnect 0 n) ∨
     (∃ n, Event.join 0 (JsValue.vStr "x") 1 = Event.timerFire 0 n)) := by
  refine ⟨?_, ?_, ?_⟩
  · exact C4_validation_deadline.1 (runEvents [.connect 0])
      (reachable_runEvents [.connect 0]) 0 ⟨false, true⟩ (by decide) (by decide)
  · exact C4_validation_deadline.2.1 (runEvents [.connect 0])
      (reachable_runEvents [.connect 0]) 0 31 (by decide)
  · exact C4_validation_deadline.2.2 (runEvents [.connect 0]) 0
      (.join 0 (.vStr "x") 1) (by decide) (by decide)

/-- C7 counterexample: from a registered, validated sender, the
`'chat message'` handler broadcasts the *client-supplied* kind
(`data.messageType || 'text'`, server.js:310) with `file: data.file || null`
— so a broadcast of kind `"file"` with a null attachment is possible — and
a text-kind broadcast can carry empty text, since validation runs before
sanitization and `sanitizeMessage "<b>" = ""`. -/
theorem C7_counterexample :
    stepEmits (runEvents [.connect 0, .join 0 (.vStr "ab") 0])
        (.chatMessage 0 ⟨.vStr "hi", .vStr "file", none⟩ 1) =
      [.toAll (.chatMsg "ab" "hi" "file" none 1)] ∧
    stepEmits (runEvents [.connect 0, .join 0 (.vStr "ab") 0])
        (.chatMessage 0 ⟨.vStr "<b>", .vNull, none⟩ 1) =
      [.toAll (.chatMsg "ab" "" "text" none 1)] := by
  decide

/-- C7 (amended).  (i) Every broadcast produced by the `'file message'`
event has kind `"file"` and a non-null attachment with non-empty `filename`
and `url`; (ii) a file submission from a registered validated sender (not
rate-limited) lacking those fields is rejected to the sender only — no
broadcast; (iii) the `'chat message'` event broadcasts the client-supplied
kind (default `"text"`) and the client's attachment field as-is, with text
that was non-empty *before* sanitization only. -/
theorem C7_message_shape :
    (∀ (st : ServerState) (s : Nat) (d : FileData) (now : Nat) (e : OutEvent),
      Emit.toAll e ∈ stepEmits st (.fileMessage s d now) →
      ∃ un m f ts, e = OutEvent.chatMsg un m "file" (some f) ts ∧
        ¬ (f.filename = "") ∧ ¬ (f.url = "")) ∧
    (∀ (st : ServerState) (s : Nat) (d : FileData) (now : Nat) (userInfo : UserInfo),
      isLive st s = true → mapGet st.users s = some userInfo →
      connValidated st s = true →
      (checkMessageRate st.messageLimiter s now).1 = true →
      (d.file = none ∨ ∃ f, d.file = some f ∧ (f.filename = "" ∨ f.url = "")) →
      step st (.fileMessage s d now) =
        (⟨st.conns, st.users, (checkMessageRate st.messageLimiter s now).2⟩,
         [.toOne s (.errorEv "Invalid file data")])) ∧
    (∀ (st : ServerState) (s : Nat) (d : ChatData) (now : Nat) (e : OutEvent),
      Emit.toAll e ∈ stepEmits st (.chatMessage s d now) →
      validateMessage d.message = true ∧
      ∃ un ts, e = OutEvent.chatMsg un (sanitizeMessage (jsStr d.message))
        (jsOrText d.messageType) d.file ts) := by
  refine ⟨?_, ?_, ?_⟩
  · intro st s d now e hmem
    simp only [stepEmits, step] at hmem
    by_cases hl : isLive st s = true
    · rw [if_pos hl] at hmem
      cases hg : mapGet st.users s with
      | none => rw [handleFile_notRegistered (Or.inl hg)] at hmem; simp at hmem
      | some userInfo =>
          cases hv : connValidated st s with
          | false => rw [handleFile_notRegistered (Or.inr hv)] at hmem; simp at hmem
          | true =>
              cases hr : (checkMessageRate st.messageLimiter s now).1 with
              | false => rw [handleFile_rate hg hv hr] at hmem; simp at hmem
              | true =>
                  cases hfile : d.file with
                  | none => rw [handleFile_noFile hg hv hr hfile] at hmem; simp at hmem
                  | some f =>
                      by_cases hfn : f.filename = ""
                      · rw [handleFile_badFields hg hv hr hfile (Or.inl hfn)] at hmem
                        simp at hmem
                      · by_cases hfu : f.url = ""
                        · rw [handleFile_badFields hg hv hr hfile (Or.inr hfu)] at hmem
                          simp at hmem
                        · rw [handleFile_success hg hv hr hfile hfn hfu] at hmem
                          simp at hmem
                          exact ⟨userInfo.username, _, f, now, hmem, hfn, hfu⟩
    · rw [if_neg hl] at hmem
      simp at hmem
  · intro st s d now userInfo hl hg hv hr hbad
    simp only [step]
    rw [if_pos hl]
    rcases hbad with hf | ⟨f, hf, hflds⟩
    · exact handleFile_noFile hg hv hr hf
    · exact handleFile_badFields hg hv hr hf hflds
  · intro st s d now e hmem
    simp only [stepEmits, step] at hmem
    by_cases hl : isLive st s = true
    · rw [if_pos hl] at hmem
      cases hg : mapGet st.users s with
      | none => rw [handleChat_notRegistered (Or.inl hg)] at hmem; simp at hmem
      | some userInfo =>
          cases hv : connValidated st s with
          | false => rw [handleChat_notRegistered (Or.inr hv)] at hmem; simp at hmem
          | true =>
              cases hr : (checkMessageRate st.messageLimiter s now).1 with
              | false => rw [handleChat_rate hg hv hr] at hmem; simp at hmem
              | true =>
                  cases hm : validateMessage d.message with
                  | false => rw [handleChat_invalid hg hv hr hm] at hmem; simp at hmem
                  | true =>
                      rw [handleChat_success hg hv hr hm] at hmem
                      simp at hmem
                      exact ⟨rfl, userInfo.username, now, hmem⟩
    · rw [if_neg hl] at hmem
      simp at hmem

/-- Witness for C7 (amended): a complete file broadcast at a concrete
state, a rejected file submission with an empty filename, and a concrete
chat broadcast. -/
theorem C7_message_shape_witness :
    (∃ un m f ts, OutEvent.chatMsg "ab" "" "file" (some ⟨"f.png", "/uploads/f.png"⟩) 1 =
      OutEvent.chatMsg un m "file" (some f) ts ∧ ¬ (f.filename = "") ∧ ¬ (f.url = "")) ∧
    step (runEvents [.connect 0, .join 0 (.vStr "ab") 0])
        (.fileMessage 0 ⟨.vNull, some ⟨"", "/uploads/x"⟩⟩ 1) =
      (⟨(runEvents [.connect 0, .join 0 (.vStr "ab") 0]).conns,
        (runEvents [.connect 0, .join 0 (.vStr "ab") 0]).users,
        (checkMessageRate (runEvents [.connect 0, .join 0 (.vStr "ab") 0]).messageLimiter 0 1).2⟩,
       [.toOne 0 (.errorEv "Invalid file data")]) ∧
    (validateMessage (ChatData.mk (.vStr "hi") .vNull none).message = true ∧
      ∃ un ts, OutEvent.chatMsg "ab" "hi" "text" none 1 =
        OutEvent.chatMsg un (sanitizeMessage (jsStr (ChatData.mk (.vStr "hi") .vNull none).message))
          (jsOrText (ChatData.mk (.vStr "hi") .vNull none).messageType)
          (ChatData.mk (.vStr "hi") .vNull none).file ts) := by
  refine ⟨?_, ?_, ?_⟩
  · exact C7_message_shape.1 (runEvents [.connect 0, .join 0 (.vStr "ab") 0]) 0
      ⟨.vNull, some ⟨"f.png", "/uploads/f.png"⟩⟩ 1
      (OutEvent.chatMsg "ab" "" "file" (some ⟨"f.png", "/uploads/f.png"⟩) 1)
      (by decide)
  · exact C7_message_shape.2.1 (runEvents [.connect 0, .join 0 (.vStr "ab") 0]) 0
      ⟨.vNull, some ⟨"", "/uploads/x"⟩⟩ 1 ⟨"ab", 0, 0⟩
      (by decide) (by decide) (by decide) (by decide)
      (Or.inr ⟨⟨"", "/uploads/x"⟩, rfl, Or.inl rfl⟩)
  · exact C7_message_shape.2.2 (runEvents [.connect 0, .join 0 (.vStr "ab") 0]) 0
      ⟨.vStr "hi", .vNull, none⟩ 1 (OutEvent.chatMsg "ab" "hi" "text" none 1)
      (by decide)

/-- C8.  Broadcast targeting: join, leave and typing announcements are
emitted with `socket.broadcast.emit` — delivered to every live connection
except the originator — while the chat-message broadcast and every roster
push use `io.emit` — delivered to every live connection *including* the
sender, who receives the authoritative copy with the server-assigned
timestamp `now`; the final clause fixes the delivery semantics of the two
fan-out constructors. -/
theorem C8_broadcast_targeting :
    (∀ (st : ServerState) (s : Nat) (u : JsValue) (now : Nat),
      isLive st s = true → validateUsername u = true →
      BANNED_USERNAMES.contains (strToLower (cleanNameOf u)) = false →
      ((mapValues st.users).any fun w =>
        strToLower w.username = strToLower (cleanNameOf u)) = false →
      stepEmits st (.join s u now) =
        [.toAllExcept s (.userJoined (cleanNameOf u)
          (cleanNameOf u ++ " joined the chat") now),
         .toAll (.usersList (rosterNames (mapSet st.users s ⟨cleanNameOf u, now, 0⟩)))]) ∧
    (∀ (st : ServerState) (s : Nat) (d : ChatData) (now : Nat) (userInfo : UserInfo),
      isLive st s = true → mapGet st.users s = some userInfo →
      connValidated st s = true →
      (checkMessageRate st.messageLimiter s now).1 = true →
      validateMessage d.message = true →
      stepEmits st (.chatMessage s d now) =
        [.toAll (.chatMsg userInfo.username (sanitizeMessage (jsStr d.message))
          (jsOrText d.messageType) d.file now)] ∧
      s ∈ emitTargets (liveIds st) (.toAll (.chatMsg userInfo.username
        (sanitizeMessage (jsStr d.message)) (jsOrText d.messageType) d.file now))) ∧
    (∀ (st : ServerState) (s : Nat) (userInfo : UserInfo),
      isLive st s = true → mapGet st.users s = some userInfo →
      connValidated st s = true →
      stepEmits st (.typing s) = [.toAllExcept s (.userTyping userInfo.username)]) ∧
    (∀ (st : ServerState) (s : Nat), isLive st s = true → connValidated st s = true →
      stepEmits st (.stopTyping s) = [.toAllExcept s .userStopTyping]) ∧
    (∀ (st : ServerState) (s now : Nat) (userInfo : UserInfo),
      isLive st s = true → mapGet st.users s = some userInfo →
      stepEmits st (.disconnect s now) =
        [.toAllExcept s (.userLeft userInfo.username
          (userInfo.username ++ " left the chat") now),
         .toAll (.usersList (rosterNames (mapDelete st.users s)))]) ∧
    (∀ (ids : List Nat) (s : Nat) (ev : OutEvent),
      emitTargets ids (Emit.toAllExcept s ev) = ids.filter (fun x => !(x = s)) ∧
      emitTargets ids (Emit.toAll ev) = ids) := by
  refine ⟨?_, ?_, ?_, ?_, ?_, ?_⟩
  · intro st s u now hl hval hban htaken
    simp only [stepEmits, step]
    rw [if_pos hl, handleJoin_success hval hban htaken]
  · intro st s d now userInfo hl hg hv hr hm
    constructor
    · simp only [stepEmits, step]
      rw [if_pos hl, handleChat_success hg hv hr hm]
    · show s ∈ liveIds st
      obtain ⟨cs, hcs⟩ : ∃ cs, mapGet st.conns s = some cs := by
        unfold isLive at hl
        cases hg2 : mapGet st.conns s with
        | none => rw [hg2] at hl; simp at hl
        | some cs => exact ⟨cs, rfl⟩
      exact mem_keys_of_mem (mapGet_mem hcs)
  · intro st s userInfo hl hg hv
    simp only [stepEmits, step]
    rw [if_pos hl, handleTyping_registered hg hv]
  · intro st s hl hv
    simp only [stepEmits, step]
    rw [if_pos hl, handleStopTyping_validated hv]
  · intro st s now userInfo hl hg
    simp only [stepEmits, step]
    rw [if_pos hl, handleDisconnect_some hg]
  · intro ids s ev
    exact ⟨rfl, rfl⟩

/-- Witness for C8 at the two-connection state with `"ab"` registered on
socket 0 and socket 1 freshly connected and joining as `"cd"`, then socket
0 chatting, typing and disconnecting. -/
theorem C8_broadcast_targeting_witness :
    stepEmits (runEvents [.connect 0, .join 0 (.vStr "ab") 0, .connect 1])
        (.join 1 (.vStr "cd") 2) =
      [.toAllExcept 1 (.userJoined (cleanNameOf (.vStr "cd"))
        (cleanNameOf (.vStr "cd") ++ " joined the chat") 2),
       .toAll (.usersList (rosterNames (mapSet
         (runEvents [.connect 0, .join 0 (.vStr "ab") 0, .connect 1]).users 1
         ⟨cleanNameOf (.vStr "cd"), 2, 0⟩)))] ∧
    (stepEmits (runEvents [.connect 0, .join 0 (.vStr "ab") 0, .connect 1])
        (.chatMessage 0 ⟨.vStr "hi", .vNull, none⟩ 3) =
      [.toAll (.chatMsg "ab" (sanitizeMessage (jsStr (JsValue.vStr "hi")))
        (jsOrText .vNull) none 3)] ∧
     0 ∈ emitTargets (liveIds (runEvents [.connect 0, .join 0 (.vStr "ab") 0, .connect 1]))
        (.toAll (.chatMsg "ab" (sanitizeMessage (jsStr (JsValue.vStr "hi")))
          (jsOrText .vNull) none 3))) ∧
    stepEmits (runEvents [.connect 0, .join 0 (.vStr "ab") 0, .connect 1])
        (.typing 0) = [.toAllExcept 0 (.userTyping "ab")] ∧
    stepEmits (runEvents [.connect 0, .join 0 (.vStr "ab") 0, .connect 1])
        (.stopTyping 0) = [.toAllExcept 0 .userStopTyping] ∧
    stepEmits (runEvents [.connect 0, .join 0 (.vStr "ab") 0, .connect 1])
        (.disconnect 0 4) =
      [.toAllExcept 0 (.userLeft "ab" ("ab" ++ " left the chat") 4),
       .toAll (.usersList (rosterNames (mapDelete
         (runEvents [.connect 0, .join 0 (.vStr "ab") 0, .connect 1]).users 0)))] ∧
    emitTargets [0, 1] (Emit.toAllExcept 0 .userStopTyping) =
      [0, 1].filter (fun x => !(x = 0)) := by
  refine ⟨?_, ?_, ?_, ?_, ?_, ?_⟩
  · exact C8_broadcast_targeting.1 _ 1 (.vStr "cd") 2
      (by decide) (by decide) (by decide) (by decide)
  · exact C8_broadcast_targeting.2.1
      (runEvents [.connect 0, .join 0 (.vStr "ab") 0, .connect 1]) 0
      ⟨.vStr "hi", .vNull, none⟩ 3 ⟨"ab", 0, 0⟩
      (by decide) (by decide) (by decide) (by decide) (by decide)
  · exact C8_broadcast_targeting.2.2.1 _ 0 ⟨"ab", 0, 0⟩
      (by decide) (by decide) (by decide)
  · exact C8_broadcast_targeting.2.2.2.1 _ 0 (by decide) (by decide)
  · exact C8_broadcast_targeting.2.2.2.2.1 _ 0 4 ⟨"ab", 0, 0⟩
      (by decide) (by decide)
  · exact (C8_broadcast_targeting.2.2.2.2.2 [0, 1] 0 .userStopTyping).1

/-- C9 counterexample: on a state whose connection-local `validated` flag
is set but whose registry has no entry for the socket, the `'stop typing'`
handler still broadcasts — it checks only `connectionValidated`
(server.js:364-368) and never performs the `users.get(socket.id)` lookup
that the other three validated-state handlers perform, refuting "each of
the four events first re-checks Registry.lookup(connId)". -/
theorem C9_counterexample :
    mapGet (ServerState.mk [(0, ⟨true, false⟩)] [] []).users 0 = none ∧
    step (ServerState.mk [(0, ⟨true, false⟩)] [] []) (.stopTyping 0) =
      (ServerState.mk [(0, ⟨true, false⟩)] [] [],
       [.toAllExcept 0 .userStopTyping]) := by
  decide

/-- C9 (amended).  `message`, `file message` and `typing` all re-check
`Registry.lookup(connId)` and do nothing — no rate-limit consumption, no
state change, no emission — when the identity is absent; `stop typing`
checks only the connection-local validated flag and broadcasts regardless
of the registry; nevertheless, in every reachable state a validated
connection has a registry entry, so no broadcast is issued on behalf of an
absent identity. -/
theorem C9_validated_guard :
    (∀ (st : ServerState) (s : Nat) (d : ChatData) (now : Nat),
      mapGet st.users s = none → step st (.chatMessage s d now) = (st, [])) ∧
    (∀ (st : ServerState) (s : Nat) (d : FileData) (now : Nat),
      mapGet st.users s = none → step st (.fileMessage s d now) = (st, [])) ∧
    (∀ (st : ServerState) (s : Nat),
      mapGet st.users s = none → step st (.typing s) = (st, [])) ∧
    (∀ (st : ServerState) (s : Nat), isLive st s = true →
      connValidated st s = true →
      step st (.stopTyping s) = (st, [.toAllExcept s .userStopTyping])) ∧
    (∀ st : ServerState, Reachable st → ∀ k cs, mapGet st.conns k = some cs →
      cs.validated = true → (mapGet st.users k).isSome) := by
  refine ⟨?_, ?_, ?_, ?_, ?_⟩
  · intro st s d now hg
    simp only [step]
    by_cases hl : isLive st s = true
    · rw [if_pos hl]
      exact handleChat_notRegistered (Or.inl hg)
    · rw [if_neg hl]
  · intro st s d now hg
    simp only [step]
    by_cases hl : isLive st s = true
    · rw [if_pos hl]
      exact handleFile_notRegistered (Or.inl hg)
    · rw [if_neg hl]
  · intro st s hg
    simp only [step]
    by_cases hl : isLive st s = true
    · rw [if_pos hl]
      exact handleTyping_notRegistered (Or.inl hg)
    · rw [if_neg hl]
  · intro st s hl hv
    simp only [step]
    rw [if_pos hl]
    exact handleStopTyping_validated hv
  · intro st h k cs hcs hv
    exact (reachable_serverInv h).validatedRegistered k cs hcs hv

/-- Witness for C9 (amended) at concrete states: a chat message and a
typing event from an unregistered socket are dropped, stop typing from a
validated socket broadcasts, and the reachable-state guarantee holds at a
one-user state. -/
theorem C9_validated_guard_witness :
    step (runEvents [.connect 0]) (.chatMessage 0 ⟨.vStr "hi", .vNull, none⟩ 1) =
      (runEvents [.connect 0], []) ∧
    step (runEvents [.connect 0]) (.fileMessage 0 ⟨.vNull, none⟩ 1) =
      (runEvents [.connect 0], []) ∧
    step (runEvents [.connect 0]) (.typing 0) = (runEvents [.connect 0], []) ∧
    step (runEvents [.connect 0, .join 0 (.vStr "ab") 0]) (.stopTyping 0) =
      (runEvents [.connect 0, .join 0 (.vStr "ab") 0],
       [.toAllExcept 0 .userStopTyping]) ∧
    (mapGet (runEvents [.connect 0, .join 0 (.vStr "ab") 0]).users 0).isSome := by
  refine ⟨?_, ?_, ?_, ?_, ?_⟩
  · exact C9_validated_guard.1 (runEvents [.connect 0]) 0
      ⟨.vStr "hi", .vNull, none⟩ 1 (by decide)
  · exact C9_validated_guard.2.1 (runEvents [.connect 0]) 0 ⟨.vNull, none⟩ 1
      (by decide)
  · exact C9_validated_guard.2.2.1 (runEvents [.connect 0]) 0 (by decide)
  · exact C9_validated_guard.2.2.2.1 (runEvents [.connect 0, .join 0 (.vStr "ab") 0])
      0 (by decide) (by decide)
  · exact C9_validated_guard.2.2.2.2 (runEvents [.connect 0, .join 0 (.vStr "ab") 0])
      (reachable_runEvents [.connect 0, .join 0 (.vStr "ab") 0]) 0
      ⟨true, false⟩ (by decide) (by decide)

/-- C10.  A second join from an already-validated connection with a valid,
non-reserved name taken by no active identity (its own old name included)
is accepted: the registry entry is overwritten in place with the new name
(`messageCount` reset to 0, fresh `joinTime`), a join announcement for the
new name goes to the other connections and the roster to everyone, no
leave announcement of any kind is emitted, and the old name is absent from
the new roster. -/
theorem C10_rejoin_overwrites {st : ServerState} (h : Reachable st) :
    ∀ (s : Nat) (raw : String) (now : Nat) (old : UserInfo),
      mapGet st.users s = some old → isLive st s = true →
      validateUsername (.vStr raw) = true →
      BANNED_USERNAMES.contains (strToLower (cleanNameOf (.vStr raw))) = false →
      ((mapValues st.users).any fun w =>
        strToLower w.username = strToLower (cleanNameOf (.vStr raw))) = false →
      step st (.join s (.vStr raw) now) =
        ({ setValidated (disarmTimer st s) s with
            users := mapSet st.users s ⟨cleanNameOf (.vStr raw), now, 0⟩ },
         [.toAllExcept s (.userJoined (cleanNameOf (.vStr raw))
            (cleanNameOf (.vStr raw) ++ " joined the chat") now),
          .toAll (.usersList (rosterNames
            (mapSet st.users s ⟨cleanNameOf (.vStr raw), now, 0⟩)))]) ∧
      mapGet (stepState st (.join s (.vStr raw) now)).users s =
        some ⟨cleanNameOf (.vStr raw), now, 0⟩ ∧
      (∀ e ∈ stepEmits st (.join s (.vStr raw) now), ∀ un m ts tgt,
        e ≠ Emit.toOne tgt (.userLeft un m ts) ∧
        e ≠ Emit.toAllExcept tgt (.userLeft un m ts) ∧
        e ≠ Emit.toAll (.userLeft un m ts)) ∧
      old.username ∉ rosterNames (mapSet st.users s ⟨cleanNameOf (.vStr raw), now, 0⟩) := by
  intro s raw now old hold hlive hval hban htaken
  have hI := reachable_serverInv h
  have hstep : step st (.join s (.vStr raw) now) =
      ({ setValidated (disarmTimer st s) s with
          users := mapSet st.users s ⟨cleanNameOf (.vStr raw), now, 0⟩ },
       [.toAllExcept s (.userJoined (cleanNameOf (.vStr raw))
          (cleanNameOf (.vStr raw) ++ " joined the chat") now),
        .toAll (.usersList (rosterNames
          (mapSet st.users s ⟨cleanNameOf (.vStr raw), now, 0⟩)))]) := by
    simp only [step]
    rw [if_pos hlive]
    exact handleJoin_success hval hban htaken
  have hdiff : ∀ w ∈ mapValues st.users,
      ¬ (strToLower w.username = strToLower (cleanNameOf (.vStr raw))) := by
    simpa using htaken
  refine ⟨hstep, ?_, ?_, ?_⟩
  · show mapGet (step st (.join s (.vStr raw) now)).1.users s = _
    rw [hstep]
    exact mapGet_mapSet_self
  · intro e hmem un m ts tgt
    show e ≠ _ ∧ e ≠ _ ∧ e ≠ _
    rw [show stepEmits st (.join s (.vStr raw) now) = _ from congrArg Prod.snd hstep]
      at hmem
    rcases List.mem_cons.1 hmem with he | he
    · rw [he]
      refine ⟨by simp, by simp, by simp⟩
    · rcases List.mem_cons.1 he with he2 | he2
      · rw [he2]
        refine ⟨by simp, by simp, by simp⟩
      · simp at he2
  · intro hmem
    unfold rosterNames at hmem
    obtain ⟨w, hwmem, hwname⟩ := List.mem_map.1 hmem
    obtain ⟨a, hamem⟩ := mem_values_iff.1 hwmem
    rcases mem_mapSet hI.usersNodup hamem with ⟨ha, hw⟩ | ⟨hamem2, ha⟩
    · rw [hw] at hwname
      have hold_mem : old ∈ mapValues st.users :=
        mem_values_iff.2 ⟨s, mapGet_mem hold⟩
      apply hdiff old hold_mem
      show strToLower old.username = strToLower (cleanNameOf (.vStr raw))
      rw [← hwname]
    · have hget : mapGet st.users a = some w := by
        obtain ⟨w2, hw2⟩ : ∃ w2, mapGet st.users a = some w2 := by
          cases hg2 : mapGet st.users a with
          | none =>
              exact absurd rfl ((mapGet_eq_none_iff.1 hg2) (a, w) hamem2)
          | some w2 => exact ⟨w2, rfl⟩
        have := mapGet_eq_of_mem hI.usersNodup hw2 hamem2
        rw [this]
        exact hw2
      have hne := hI.uniqueNames a w s old hget hold ha
      apply hne
      rw [hwname]

/-- Witness for C10: socket 0, registered as `"ab"`, rejoins as `"Bob"`;
the entry is overwritten, only join/roster emissions occur, and `"ab"` is
gone from the roster. -/
theorem C10_rejoin_overwrites_witness :
    step (runEvents [.connect 0, .join 0 (.vStr "ab") 0]) (.join 0 (.vStr "Bob") 5) =
      ({ setValidated (disarmTimer (runEvents [.connect 0, .join 0 (.vStr "ab") 0]) 0) 0 with
          users := mapSet (runEvents [.connect 0, .join 0 (.vStr "ab") 0]).users 0
            ⟨cleanNameOf (.vStr "Bob"), 5, 0⟩ },
       [.toAllExcept 0 (.userJoined (cleanNameOf (.vStr "Bob"))
          (cleanNameOf (.vStr "Bob") ++ " joined the chat") 5),
        .toAll (.usersList (rosterNames
          (mapSet (runEvents [.connect 0, .join 0 (.vStr "ab") 0]).users 0
            ⟨cleanNameOf (.vStr "Bob"), 5, 0⟩)))]) ∧
    mapGet (stepState (runEvents [.connect 0, .join 0 (.vStr "ab") 0])
        (.join 0 (.vStr "Bob") 5)).users 0 = some ⟨cleanNameOf (.vStr "Bob"), 5, 0⟩ ∧
    (UserInfo.mk "ab" 0 0).username ∉ rosterNames
      (mapSet (runEvents [.connect 0, .join 0 (.vStr "ab") 0]).users 0
        ⟨cleanNameOf (.vStr "Bob"), 5, 0⟩) := by
  have h := C10_rejoin_overwrites
    (reachable_runEvents [.connect 0, .join 0 (.vStr "ab") 0]) 0 "Bob" 5
    ⟨"ab", 0, 0⟩ (by decide) (by decide) (by decide) (by decide) (by decide)
  exact ⟨h.1, h.2.1, h.2.2.2⟩
